import Mathlib

/-!
Verification of the Infexion-2P decision engine (`src/agent`): a shallow
embedding, translated from the Python sources, of the board/mutation model
(`agent/game/board.py`), the move generator and endgame shortcut
(`agent/search/search_utils.py`, `agent/search/minimax/minimax_utils.py`),
the alpha-beta negamax search (`agent/search/negamax/negamax.py`), the
cluster structure (`agent/game/cluster.py`), the evaluators
(`agent/search/evaluation_data.py`, `agent/search/monte_carlo/evaluation.py`)
and the Monte Carlo expansion step (`agent/search/monte_carlo/monte_carlo.py`),
together with theorems settling the specification claims.

Conventions: Python ints are `Nat`/`Int`; Python `float('inf')` together with
finite scores is the three-case type `PyFloat`; code that can raise is embedded in
`Except PyErr`; Python dicts that are only used through key lookup and whose
key set is fixed (the dense board state, keyed by all 49 position hashes,
with `HexPos.__hash__` injective on the 7 by 7 board) are embedded as total
functions from positions; dicts whose insertion order or key values matter
are embedded as insertion-ordered association lists.
-/

/-- The two player colors (`referee/game/player.py`). -/
inductive PColor where
  | red
  | blue
deriving DecidableEq, Repr

/-- PlayerColor.opponent. -/
def PColor.opponent : PColor → PColor
  | .red => .blue
  | .blue => .red

/-- Modelled from the spec: the constant `PLAYER_COLOR` (the fixed reference
color of the agent) is referenced throughout `agent/` but its defining
constants module is not part of the source snapshot; the spec fixes the
zero-sum evaluator to be "positive favors a fixed reference color" and the
source docstrings say "if player is red then maximize by multiplying 1",
so the reference color is modelled as red. -/
def PLAYER_COLOR : PColor := .red

/-- Modelled from the spec: `OPPONENT_COLOR`, the opponent of `PLAYER_COLOR`. -/
def OPPONENT_COLOR : PColor := .blue

/-- BOARD_N = 7 (`referee/game/constants.py`). -/
def BOARD_N : Nat := 7

/-- MAX_CELL_POWER = BOARD_N - 1 = 6. -/
def MAX_CELL_POWER : Nat := 6

/-- MAX_TOTAL_POWER = BOARD_N * BOARD_N = 49. -/
def MAX_TOTAL_POWER : Nat := 49

/-- MAX_TURNS = BOARD_N ** 3 = 343. -/
def MAX_TURNS : Nat := 343

/-- EMPTY_POWER = 0 (`agent/game/constants.py`). -/
def EMPTY_POWER : Nat := 0

/-- MIN_MOVE_WIN = 2 (`agent/game/constants.py`). -/
def MIN_MOVE_WIN : Nat := 2

/-- MIN_TOTAL_POWER = 12 (`agent/game/constants.py`). -/
def MIN_TOTAL_POWER : Nat := 12

/-- A board position `HexPos(r, q)` with both coordinates in `range(BOARD_N)`
(`referee/game/hex.py`). -/
structure Pos where
  r : Fin 7
  q : Fin 7
deriving DecidableEq, Repr, Fintype

/-- The six hex directions of the enum `HexDir` (`referee/game/hex.py`),
listed in the enum's iteration order. -/
inductive Dir where
  | downRight
  | down
  | downLeft
  | upLeft
  | up
  | upRight
deriving DecidableEq, Repr, Fintype

/-- The `HexVec` value of a direction. -/
def Dir.vec : Dir → Int × Int
  | .downRight => (0, 1)
  | .down      => (-1, 1)
  | .downLeft  => (-1, 0)
  | .upLeft    => (0, -1)
  | .up        => (1, -1)
  | .upRight   => (1, 0)

/-- The `HexDir` enum members in iteration order (`for dir in HexDir`). -/
def hexDirs : List Dir := [.downRight, .down, .downLeft, .upLeft, .up, .upRight]

/-- Reduce an integer coordinate modulo BOARD_N, as Python's `% BOARD_N`
on ints (always non-negative). -/
def wrap7 (z : Int) : Fin 7 :=
  ⟨(z % 7).toNat, by omega⟩

/-- HexPos.__add__ / __sub__ composed with scalar multiples of a direction:
the position `p + dir * mult`, coordinates wrapping modulo BOARD_N
(`referee/game/hex.py`).  `mult` may be negative (used by the `-s` ray
scans of `check_endgame`). -/
def Pos.addMul (p : Pos) (d : Dir) (mult : Int) : Pos :=
  ⟨wrap7 ((p.r : Int) + d.vec.1 * mult), wrap7 ((p.q : Int) + d.vec.2 * mult)⟩

/-- The state of one cell: occupant color (nullable) and stack power
(`agent/game/board.py`, class `CellState`). -/
structure CellState where
  pos : Pos
  color : Option PColor
  power : Nat
deriving DecidableEq, Repr

/-- CellState.__post_init__: a cell whose color is `None` or whose power
exceeds MAX_CELL_POWER is reset to an empty cell (power 0, no color).
Every CellState the Python code constructs passes through this. -/
def mkCellState (pos : Pos) (color : Option PColor) (power : Nat) : CellState :=
  if color = none ∨ power > MAX_CELL_POWER then ⟨pos, none, 0⟩ else ⟨pos, color, power⟩

/-- The empty cell `CellState(pos)`. -/
def emptyCell (pos : Pos) : CellState := mkCellState pos none 0

/-- The two action kinds `SpawnAction(cell)` and `SpreadAction(cell, direction)`
(`referee/game/actions.py`). -/
inductive GameAction where
  | spawn (pos : Pos)
  | spread (pos : Pos) (dir : Dir)
deriving DecidableEq, Repr

/-- A `CellMutation`: a position with its prior and resulting cell state
(`agent/game/board.py`). -/
structure CellMutation where
  pos : Pos
  prev : CellState
  next : CellState
deriving DecidableEq, Repr

/-- A `BoardMutation`: the action together with the minimal set of cell
mutations it produced (`agent/game/board.py`).  The Python `set` holds
mutations at pairwise distinct positions, so it is embedded as a list
(source mutation first, then the spread destinations in ray order). -/
structure BoardMutation where
  action : GameAction
  cell_mutations : List CellMutation
deriving DecidableEq, Repr

/-- Python exceptions raised by the embedded code. -/
inductive PyErr where
  | exception (msg : String)
  | typeError (msg : String)
  | attributeError (msg : String)
deriving DecidableEq, Repr

/-- The board (`agent/game/board.py`, class `Board`): the dense `_state`
dict keyed by the (injective) position hash is embedded as a total function
from positions; `_turn_color`, `_true_turn`, `_turn_count` and the
`_non_concrete_history` stack (list append/pop at the same end, embedded
as cons/uncons at the head) are carried verbatim. -/
structure Board where
  state : Pos → CellState
  turn_color : PColor
  true_turn : PColor
  turn_count : Int
  history : List BoardMutation

/-- All 49 board positions in the row-major creation/iteration order of the
`_state` dict (`Board.__init__` inserts `HexPos(r, q)` for `r` then `q`
in `range(BOARD_N)`; later writes replace values of existing keys, so the
dict's iteration order stays row-major for the whole game). -/
def allPos : List Pos :=
  (List.finRange 7).flatMap (fun r => (List.finRange 7).map (fun q => ⟨r, q⟩))

/-- Board.get_cells(): the values of the dense state dict, in iteration
order. -/
def Board.get_cells (b : Board) : List CellState := allPos.map b.state

/-- Board.total_power(): sum of the powers of all cells. -/
def Board.total_power (b : Board) : Nat :=
  (b.get_cells.map (fun c => c.power)).sum

/-- Board.player_cells(color): the cells occupied by the given color, in
board iteration order. -/
def Board.player_cells (b : Board) (color : PColor) : List CellState :=
  b.get_cells.filter (fun c => c.color = some color)

/-- Board.num_players(color). -/
def Board.num_players (b : Board) (color : PColor) : Nat :=
  (b.player_cells color).length

/-- Board.color_power(color). -/
def Board.color_power (b : Board) (color : PColor) : Nat :=
  ((b.player_cells color).map (fun c => c.power)).sum

/-- Board.color_number_and_power(color): `(len(color_cells), sum(color_cells))`. -/
def Board.color_number_and_power (b : Board) (color : PColor) : Nat × Nat :=
  ((b.player_cells color).length, ((b.player_cells color).map (fun c => c.power)).sum)

/-- Board.pos_occupied(pos): power strictly above EMPTY_POWER. -/
def Board.pos_occupied (b : Board) (pos : Pos) : Bool :=
  (b.state pos).power > EMPTY_POWER

/-- Board.game_over. -/
def Board.game_over (b : Board) : Bool :=
  b.turn_count ≥ (MIN_MOVE_WIN : Int) &&
    (b.turn_count ≥ (MAX_TURNS : Int) ||
     b.color_power PLAYER_COLOR = EMPTY_POWER ||
     b.color_power OPPONENT_COLOR = EMPTY_POWER)

/-- Board.spawn(action): raises when total power is already at capacity or
the cell is occupied; otherwise returns the single-cell BoardMutation placing
a power-1 piece of the turn color (`agent/game/board.py`, lines 357-390). -/
def Board.spawn (b : Board) (pos : Pos) : Except PyErr BoardMutation :=
  if b.total_power ≥ MAX_TOTAL_POWER then
    .error (.exception "SPAWN: total power exceeded")
  else if b.pos_occupied pos then
    .error (.exception "SPAWN: cell occupied")
  else
    .ok ⟨.spawn pos, [⟨pos, b.state pos, mkCellState pos (some b.turn_color) 1⟩]⟩

/-- Board.spread(action): raises when the source cell is empty or not owned
by the turn color; otherwise returns the BoardMutation that empties the
source and increments each of the `power` ray cells, claiming them for the
mover (`agent/game/board.py`, lines 392-434). -/
def Board.spread (b : Board) (pos : Pos) (dir : Dir) : Except PyErr BoardMutation :=
  if (b.state pos).power = 0 then
    .error (.exception "SPREAD: cell is empty")
  else if (b.state pos).color ≠ some b.turn_color then
    .error (.exception "SPREAD: cell color differs")
  else
    let toCells := (List.range (b.state pos).power).map (fun (i : Nat) => pos.addMul dir ((i : Int) + 1))
    .ok ⟨.spread pos dir,
      ⟨pos, b.state pos, emptyCell pos⟩ ::
        toCells.map (fun t => ⟨t, b.state t, mkCellState t (some b.turn_color) ((b.state t).power + 1)⟩)⟩

/-- Write the `next` state of each mutation into the state map, in list
order (`for mutation in board_mutation.cell_mutations: self[pos] = mutation.next`). -/
def writeNext (s : Pos → CellState) (muts : List CellMutation) : Pos → CellState :=
  muts.foldl (fun st m => fun p => if p = m.pos then m.next else st p) s

/-- Write the `prev` state of each mutation into the state map, in list
order (the body of `undo_action`). -/
def writePrev (s : Pos → CellState) (muts : List CellMutation) : Pos → CellState :=
  muts.foldl (fun st m => fun p => if p = m.pos then m.prev else st p) s

/-- The tail of Board.apply_action once the BoardMutation is computed:
propagate the exception, or write each mutated cell, flip the turn color,
increment the turn count, and either record the mutation on the
non-concrete history stack (exploratory) or advance the true turn
(concrete). -/
def applyMut (b : Board) (r : Except PyErr BoardMutation) (concrete : Bool) :
    Except PyErr Board :=
  match r with
  | .error e => .error e
  | .ok bm =>
    let st := writeNext b.state bm.cell_mutations
    if concrete then
      .ok ⟨st, b.turn_color.opponent, b.turn_color.opponent, b.turn_count + 1, b.history⟩
    else
      .ok ⟨st, b.turn_color.opponent, b.true_turn, b.turn_count + 1, bm :: b.history⟩

/-- Board.apply_action(action, concrete) (`agent/game/board.py`,
lines 436-464): computes the BoardMutation for the action (which may raise)
and applies it via `applyMut`. -/
def Board.apply_action (b : Board) (a : GameAction) (concrete : Bool) : Except PyErr Board :=
  applyMut b (match a with
              | .spawn pos => b.spawn pos
              | .spread pos dir => b.spread pos dir) concrete

/-- Board.undo_action(): no-op on an empty history; otherwise pops the most
recent BoardMutation, restores every touched cell to its prior state and
reverts turn color and count (`agent/game/board.py`, lines 466-478). -/
def Board.undo_action (b : Board) : Board :=
  match b.history with
  | [] => b
  | bm :: rest =>
    ⟨writePrev b.state bm.cell_mutations, b.turn_color.opponent, b.true_turn,
      b.turn_count - 1, rest⟩

/-- Apply a sequence of exploratory (non-concrete) actions left to right,
propagating any exception. -/
def applySeq (b : Board) : List GameAction → Except PyErr Board
  | [] => .ok b
  | a :: rest =>
    match b.apply_action a false with
    | .ok b' => applySeq b' rest
    | .error e => .error e

/-- Call `undo_action` n times. -/
def undoN : Nat → Board → Board
  | 0, b => b
  | n + 1, b => (undoN n b).undo_action

/-- Extract the payload of a successful `Except`, with a default. -/
def okD (e : Except PyErr α) (d : α) : α :=
  match e with
  | .ok x => x
  | .error _ => d

/-- Build a test board: the given cells (position, color, power) over an
otherwise empty board, red to move, turn count 0, empty history. -/
def boardOf (cells : List (Pos × PColor × Nat)) : Board :=
  { state := fun p =>
      match cells.find? (fun e => e.1 = p) with
      | some e => mkCellState p (some e.2.1) e.2.2
      | none => emptyCell p
    turn_color := .red
    true_turn := .red
    turn_count := 0
    history := [] }

/-- The mutation among `muts` that is written last at position `p`
(list-order write semantics), if any. -/
def lastAt : List CellMutation → Pos → Option CellMutation
  | [], _ => none
  | m :: ms, p =>
    match lastAt ms p with
    | some m' => some m'
    | none => if m.pos = p then some m else none

/-- Whether an `Except` value is an exception. -/
def exErr : Except PyErr α → Bool
  | .error _ => true
  | .ok _ => false

/-- A placeholder BoardMutation used as an `okD` default. -/
def dummyMutation : BoardMutation := ⟨.spawn ⟨0, 0⟩, []⟩

/-- Witness board for the round-trip claim: the empty initial board. -/
def wit1Board : Board := boardOf []

/-- Witness action sequence for the round-trip claim: two legal spawns. -/
def wit1Acts : List GameAction := [.spawn ⟨0, 0⟩, .spawn ⟨1, 1⟩]

/-- The board after applying the witness sequence exploratorily. -/
def wit1After : Board := okD (applySeq wit1Board wit1Acts) wit1Board

/-- Witness board for the spread claims: a red power-2 stack at (2,2) and a
blue power-1 piece at (2,3), red to move. -/
def wit2Board : Board := boardOf [(⟨2, 2⟩, .red, 2), (⟨2, 3⟩, .blue, 1)]

/-- The BoardMutation computed for the witness spread. -/
def wit2Mutation : BoardMutation := okD (wit2Board.spread ⟨2, 2⟩ .downRight) dummyMutation

/-- The board after applying the witness spread. -/
def wit2After : Board := okD (wit2Board.apply_action (.spread ⟨2, 2⟩ .downRight) false) wit2Board

/-- Witness board for the power-cap claim: a red power-2 stack at (2,2) and a
blue stack already at MAX_CELL_POWER on the first ray cell (2,3). -/
def wit10Board : Board := boardOf [(⟨2, 2⟩, .red, 2), (⟨2, 3⟩, .blue, 6)]

/-- The board after the capping witness spread. -/
def wit10After : Board := okD (wit10Board.apply_action (.spread ⟨2, 2⟩ .downRight) false) wit10Board

/-- Counterexample board for the no-validation claim: a red piece occupies
(0,0). -/
def cexOccBoard : Board := boardOf [(⟨0, 0⟩, .red, 1)]

/-!  ## Move generator and endgame shortcut
(`agent/search/search_utils.py`, `agent/search/minimax/minimax_utils.py`) -/

/-- adjacent_positions(pos): the six neighbours `pos + dir`. -/
def adjacent_positions (pos : Pos) : List Pos := hexDirs.map (fun d => pos.addMul d 1)

/-- Lookup in an insertion-ordered association list (a Python dict keyed by
`(HexPos, HexDir)` pairs). -/
def alGet? (l : List ((Pos × Dir) × Nat)) (k : Pos × Dir) : Option Nat :=
  (l.find? (fun e => decide (e.1 = k))).map (fun e => e.2)

/-- Write to an insertion-ordered association list: an existing key keeps its
slot (CPython dict update semantics); a new key is appended. -/
def alSet (l : List ((Pos × Dir) × Nat)) (k : Pos × Dir) (v : Nat) : List ((Pos × Dir) × Nat) :=
  if (l.find? (fun e => decide (e.1 = k))).isSome then
    l.map (fun e => if e.1 = k then (k, v) else e)
  else l ++ [(k, v)]

/-- The ray offsets `s` scanned by check_endgame: `range(1, BOARD_N//2 + 1)`
then `range(-1, -BOARD_N//2 - 1, -1)`. -/
def raySteps : List Int := [1, 2, 3, -1, -2, -3]

/-- The (direction, offset) pairs in loop-nesting order (`for dir in HexDir:
for r in ranges: for s in r`). -/
def dirSteps : List (Dir × Int) := hexDirs.flatMap (fun d => raySteps.map (fun s => (d, s)))

/-- The body of check_endgame's per-opponent scan: walk every (dir, s),
look at `opponent.pos - dir * s`, skip empty or opponent-colored cells, and
when the cell's power reaches the distance record the capture in
`action_capture` (increment) and, for a stacked opponent, in
`stacked_capture` (set to 1), marking the opponent cleared.  State is
(cleared, action_capture, stacked_capture). -/
def ceScanOpp (b : Board) (color : PColor) (opp : CellState)
    (ac sc : List ((Pos × Dir) × Nat)) :
    Bool × List ((Pos × Dir) × Nat) × List ((Pos × Dir) × Nat) :=
  dirSteps.foldl (fun st ds =>
    let curr_pos := opp.pos.addMul ds.1 (-ds.2)
    let cell := b.state curr_pos
    if cell.power = EMPTY_POWER ∨ cell.color = some color.opponent then st
    else if cell.power ≥ (ds.2).natAbs then
      let key := (curr_pos, ds.1)
      let ac2 := match alGet? st.2.1 key with
        | some v => alSet st.2.1 key (v + 1)
        | none => alSet st.2.1 key 1
      let sc2 := if opp.power > 1 then alSet st.2.2 key 1 else st.2.2
      (true, ac2, sc2)
    else st)
    (!(opp.power > 1), ac, sc)

/-- check_endgame's outer opponent loop, with the early `return []` when a
stacked opponent cannot be cleared (`none`). -/
def ceOpponents (b : Board) (color : PColor) :
    List CellState → List ((Pos × Dir) × Nat) → List ((Pos × Dir) × Nat) →
    Option (List ((Pos × Dir) × Nat) × List ((Pos × Dir) × Nat))
  | [], ac, sc => some (ac, sc)
  | opp :: rest, ac, sc =>
    let r := ceScanOpp b color opp ac sc
    if r.1 then ceOpponents b color rest r.2.1 r.2.2 else none

/-- Strict lexicographic comparison on the (captures, power) sort key. -/
def lexLt (a b : Nat × Nat) : Bool := a.1 < b.1 || (a.1 = b.1 && a.2 < b.2)

/-- Stable descending insertion: x goes in front of the first element whose
key is not strictly greater, so earlier-listed elements with equal keys stay
first, as Python's stable `sorted(..., reverse=True)`. -/
def insertDesc (key : α → Nat × Nat) (x : α) : List α → List α
  | [] => [x]
  | y :: ys => if lexLt (key x) (key y) then y :: insertDesc key x ys else x :: y :: ys

/-- Python `sorted(items, key=..., reverse=True)`: stable descending sort. -/
def pySortedDesc (key : α → Nat × Nat) : List α → List α
  | [] => []
  | x :: xs => insertDesc key x (pySortedDesc key xs)

/-- check_endgame(board, color) from `agent/search/search_utils.py`
(lines 49-138): under the player-power floor it tests the `endgame`
condition (note: the second conjunct compares the length of
`list(map(lambda x: x, bool_single_power))` — an identity map — with
`len(bool_single_power) - 1`, exactly as in the source), scans rays per
opponent, merges `stacked_capture` with `action_capture`, sorts by
(captures, power) descending and returns the leading block of equally best
Spread actions together with the two power totals. -/
def check_endgame (b : Board) (color : PColor) : List GameAction × Nat × Nat :=
  let pn := (b.color_number_and_power color).1
  let pp := (b.color_number_and_power color).2
  let onum := (b.color_number_and_power color.opponent).1
  let op := (b.color_number_and_power color.opponent).2
  if pp ≥ MAX_TOTAL_POWER / 4 then
    let opponents := b.player_cells color.opponent
    let bool_single_power := opponents.map (fun c => decide (c.power = 1))
    let single_power := bool_single_power.map (fun x => x)
    if decide (onum ≤ pn / 3) &&
        decide ((single_power.length : Int) ≥ (bool_single_power.length : Int) - 1) then
      match ceOpponents b color opponents [] [] with
      | none => ([], pp, op)
      | some (ac, sc) =>
        let final : List ((Pos × Dir) × Nat) :=
          -- every stacked_capture key was inserted together with an
          -- action_capture entry, so the `action_capture[key]` read cannot
          -- raise KeyError; `getD 0` is therefore never the default
          if sc ≠ [] then sc.map (fun e => (e.1, e.2 + (alGet? ac e.1).getD 0))
          else ac
        if final = [] then ([], pp, op)
        else
          match pySortedDesc (fun e => (e.2, (b.state e.1.1).power)) final with
          -- unreachable: `final` is non-empty here, and so is its sort
          | [] => ([], pp, op)
          | (k0, maxcap) :: rest =>
            (((((k0, maxcap) :: rest).takeWhile (fun e =>
                decide (maxcap ≤ e.2) &&
                decide ((b.state k0.1).power ≤ (b.state e.1.1).power))).map
              (fun e => GameAction.spread e.1.1 e.1.2)), pp, op)
    else ([], pp, op)
  else ([], pp, op)

/-- check_endgame from `agent/search/minimax/minimax_utils.py` (lines 26-111):
a verbatim duplicate of the search_utils version except that it returns only
the action list. -/
def check_endgame_m (b : Board) (color : PColor) : List GameAction :=
  (check_endgame b color).1

/-- The actions get_legal_moves contributes for one cell of the board scan:
a Spawn for an unoccupied cell (in full mode unconditionally while under
capacity; in reduced mode only when the mover's power is under the floor or
not ahead, and the cell adjoins a friendly piece), and the Spread actions of
a mover-owned cell (reduced mode filters a power-1 cell to the directions
whose neighbour is opponent-owned once total power exceeds the floor). -/
def glmCellActions (b : Board) (color : PColor) (get_all : Bool)
    (pp op : Nat) (cell : CellState) : List GameAction :=
  let pos := cell.pos
  if ¬ (b.pos_occupied pos = true) then
    if b.total_power < MAX_TOTAL_POWER then
      if get_all then [.spawn pos]
      else if pp < MIN_TOTAL_POWER ∨ pp ≤ op then
        if (adjacent_positions pos).any (fun adj => decide ((b.state adj).color = some color))
        then [.spawn pos] else []
      else []
    else []
  else if (b.state pos).color = some color then
    if get_all = false ∧ (b.state pos).power = 1 ∧ b.total_power > MIN_TOTAL_POWER then
      (hexDirs.filter (fun dir =>
        decide ((b.state (pos.addMul dir 1)).color = some color.opponent))).map
        (fun dir => GameAction.spread pos dir)
    else hexDirs.map (fun dir => GameAction.spread pos dir)
  else []

/-- The `get_all` flag of get_legal_moves: the requested mode, escalated to
full when the mover (and it is the mover's turn) is overwhelmed — its power
at most a third of the opponent's with the total above the floor. -/
def glmGetAll (b : Board) (color : PColor) (full : Bool) : Bool :=
  full || (decide (color = b.turn_color) &&
    decide ((check_endgame b color).2.1 ≤ (check_endgame b color).2.2 / 3) &&
    decide (MIN_TOTAL_POWER ≤ (check_endgame b color).2.1 + (check_endgame b color).2.2))

/-- get_legal_moves(board, color, full) from `agent/search/search_utils.py`
(lines 141-201): the endgame shortcut result is returned when non-empty;
otherwise the 49-cell scan accumulates spawn and spread actions per
`glmCellActions` under the (possibly escalated) mode. -/
def get_legal_moves (b : Board) (color : PColor) (full : Bool) : List GameAction × Bool :=
  if (check_endgame b color).1.length > 0 then ((check_endgame b color).1, true)
  else
    (b.get_cells.foldl (fun acc cell => acc ++
        glmCellActions b color (glmGetAll b color full)
          (check_endgame b color).2.1 (check_endgame b color).2.2 cell)
      (check_endgame b color).1, false)

/-- The result of get_optimized_legal_moves: the reduced path returns an
action list and endgame flag, but the full path returns
`get_legal_moves(board, color), False` — the inner call's (list, bool) pair
nested as the first component. -/
inductive OptMoves where
  | reduced (acts : List GameAction) (endgame : Bool)
  | fullPair (inner : List GameAction × Bool) (endgame : Bool)
deriving DecidableEq, Repr

/-- One cell's contribution in get_optimized_legal_moves' reduced scan
(`agent/search/minimax/minimax_utils.py`, lines 147-174). -/
def golmCellActions (b : Board) (color : PColor) (pp op : Nat) (cell : CellState) :
    List GameAction :=
  let pos := cell.pos
  if ¬ (b.pos_occupied pos = true) then
    if b.total_power < MAX_TOTAL_POWER then
      if pp < MIN_TOTAL_POWER ∨ pp ≤ op then
        if (adjacent_positions pos).any (fun adj => decide ((b.state adj).color = some color))
        then [.spawn pos] else []
      else []
    else []
  else if (b.state pos).color = some color then
    if (b.state pos).power = 1 ∧ b.total_power > MIN_TOTAL_POWER then
      (hexDirs.filter (fun dir =>
        decide ((b.state (pos.addMul dir 1)).color = some color.opponent))).map
        (fun dir => GameAction.spread pos dir)
    else hexDirs.map (fun dir => GameAction.spread pos dir)
  else []

/-- get_optimized_legal_moves(board, color, full) from
`agent/search/minimax/minimax_utils.py` (lines 114-174): reduced mode is
escalated to full for an overwhelmed true-turn mover; reduced mode consults
the endgame shortcut and otherwise scans with `golmCellActions`; full mode
returns `get_legal_moves(board, color), False` (the nested pair, as in the
source). -/
def get_optimized_legal_moves (b : Board) (color : PColor) (full : Bool) : OptMoves :=
  let pp := b.color_power color
  let op := b.color_power color.opponent
  let fullE := full || (decide (color = b.true_turn) &&
    decide (pp ≤ op / 3) && decide (MIN_TOTAL_POWER ≤ pp + op))
  if fullE = false then
    if (check_endgame_m b color).length > 0 then .reduced (check_endgame_m b color) true
    else
      .reduced (b.get_cells.foldl (fun acc cell => acc ++ golmCellActions b color pp op cell) []) false
  else .fullPair (get_legal_moves b color true) false

/-- Whether every cell of the board satisfies the CellState invariants that
the Python constructors maintain: the stored position matches the key, and
a cell has no color exactly when its power is zero. -/
def wf_board (b : Board) : Bool :=
  allPos.all (fun p => decide ((b.state p).pos = p) &&
    (((b.state p).color).isNone == decide ((b.state p).power = 0)))

/-- Counterexample board for reduced-mode generator totality: a single blue
power-1 piece; red (the mover) has no pieces, and total power is far below
capacity. -/
def cex3Board : Board := boardOf [(⟨3, 3⟩, .blue, 1)]

/-- Board exercising the endgame shortcut with every opponent piece stacked:
red holds a power-6 stack at (0,0) plus five more pieces (total power 12,
six pieces); blue has exactly two pieces, both of power 2, on (0,1) and
(0,2), each clearable by the (0,0) stack along a ray. -/
def cb6Board : Board := boardOf
  [(⟨0, 0⟩, .red, 6), (⟨3, 0⟩, .red, 2), (⟨3, 1⟩, .red, 1), (⟨3, 2⟩, .red, 1),
   (⟨3, 3⟩, .red, 1), (⟨3, 4⟩, .red, 1), (⟨0, 1⟩, .blue, 2), (⟨0, 2⟩, .blue, 2)]

/-!  ## CPython hashing and the cluster structure (`agent/game/cluster.py`) -/

/-- Two to the 64, the modulus of CPython's 64-bit tuple hash. -/
def U64 : Nat := 18446744073709551616

/-- xxHash prime 1, as in CPython's pyhash tuple algorithm. -/
def XXPRIME_1 : Nat := 11400714785074694791

/-- xxHash prime 2. -/
def XXPRIME_2 : Nat := 14029467366897019727

/-- xxHash prime 5. -/
def XXPRIME_5 : Nat := 2870177450012600261

/-- Rotate left on 64 bits. -/
def rotl64 (x n : Nat) : Nat := ((x <<< n) ||| (x >>> (64 - n))) % U64

/-- One lane of CPython's tuple hash accumulator update. -/
def pyTupleLane (acc lane : Nat) : Nat :=
  (rotl64 ((acc + lane * XXPRIME_2) % U64) 31) * XXPRIME_1 % U64

/-- CPython's `hash((r, q))` for small non-negative ints r, q (whose own
hashes are themselves): the xxHash-based tuple hash of CPython 3.8+,
returned as a signed 64-bit value.  `HexPos` is a frozen dataclass, so
`HexPos.__hash__` is exactly this hash of the field tuple. -/
def pyHashPair (r q : Nat) : Int :=
  let acc1 := pyTupleLane (pyTupleLane XXPRIME_5 r) q
  let acc2 := (acc1 + ((2 : Nat) ^^^ (XXPRIME_5 ^^^ 3527539))) % U64
  let acc3 := if acc2 = U64 - 1 then 1546275796 else acc2
  if acc3 < 2 ^ 63 then (acc3 : Int) else (acc3 : Int) - (U64 : Int)

/-- The Python hash `pos.__hash__()` of a board position. -/
def posHash (p : Pos) : Int := pyHashPair p.r.val p.q.val

/-- A cluster (`agent/game/cluster.py`, class `Cluster`): the `cells` dict —
keyed by the Python hash of each member position — is embedded as an
insertion-ordered association list, because `get_power` folds over the dict
itself and therefore over its integer keys. -/
structure Cluster where
  init_state : CellState
  init_pos : Pos
  color : Option PColor
  cells : List (Int × CellState)
  opponents : List (Int × Nat)
deriving DecidableEq, Repr

/-- Cluster.__init__(init_state): a singleton cluster seeded with the cell,
its dict holding one entry keyed by the position hash. -/
def Cluster.ofCell (init : CellState) : Cluster :=
  ⟨init, init.pos, init.color, [(posHash init.pos, init)], []⟩

/-- Cluster.get_power(): `sum(self.cells)` — iterating a Python dict yields
its KEYS, so this sums the member positions' hash values, not the member
cells' powers (`agent/game/cluster.py`, lines 106-112). -/
def Cluster.get_power (c : Cluster) : Int := (c.cells.map (fun e => e.1)).sum

/-- The power levels of a cluster's member cells (what get_power's docstring
says it returns the total of). -/
def Cluster.member_powers (c : Cluster) : List Nat := c.cells.map (fun e => e.2.power)

/-!  ## Evaluation data and the Monte Carlo evaluator
(`agent/search/evaluation_data.py`, `agent/search/monte_carlo/evaluation.py`) -/

/-- Python float scores: minus infinity, a finite value, or plus infinity
(`INF = float("inf")` in `agent/game/constants.py`).  Negation and order
comparisons on floats are exact, which is all the embedded code does with
these values. -/
inductive PyFloat where
  | ninf
  | fin (v : Int)
  | pinf
deriving DecidableEq, Repr

/-- The EvaluateData record (`agent/search/evaluation_data.py`, lines 24-64),
fields and defaults as in the dataclass (slots=True: exactly these
attributes exist). -/
structure EvaluateData where
  num_player : Nat := 0
  pow_player : Nat := 0
  num_player_clusters : Nat := 0
  num_player_dominates : Nat := 0
  pow_player_dominates : Nat := 0
  size_player_clusters : Nat := 0
  num_opponent : Nat := 0
  pow_opponent : Nat := 0
  num_opponent_clusters : Nat := 0
  num_opponent_dominates : Nat := 0
  pow_opponent_dominates : Nat := 0
  size_opponent_clusters : Nat := 0
  immediate_evaluation : PyFloat := .fin 0
  immediate : Bool := false
  sign : Int := 1
deriving DecidableEq, Repr

/-- get_evaluate_data(board) (`agent/search/evaluation_data.py`,
lines 67-122): with PLAYER_COLOR red the sign is 1; a side with zero pieces
short-circuits to an immediate ±INF evaluation.  Otherwise the source calls
`create_clusters(board)` — but the `create_clusters` imported from
`agent.game` (`agent/game/cluster.py`, line 260) requires two positional
arguments `(board, color)`, so the call raises TypeError before any cluster
data is collected. -/
def get_evaluate_data (b : Board) : Except PyErr EvaluateData :=
  let np := (b.color_number_and_power PLAYER_COLOR).1
  let pp := (b.color_number_and_power PLAYER_COLOR).2
  let no := (b.color_number_and_power OPPONENT_COLOR).1
  let op := (b.color_number_and_power OPPONENT_COLOR).2
  if np = 0 then
    .ok { num_player := np, pow_player := pp, num_opponent := no, pow_opponent := op,
          immediate_evaluation := .ninf, immediate := true, sign := 1 }
  else if no = 0 then
    .ok { num_player := np, pow_player := pp, num_opponent := no, pow_opponent := op,
          immediate_evaluation := .pinf, immediate := true, sign := 1 }
  else
    .error (.typeError "create_clusters() missing 1 required positional argument: color")

/-- mc_evaluate(board) from `agent/search/monte_carlo/evaluation.py`
(lines 19-54), the evaluator the MCTS nodes call: after get_evaluate_data,
the immediate branch reads `data.immediate_eval` and the normalized branch
reads `data.num_red_clusters` (and three more `*_red_*`/`*_blue_*` fields);
none of these attributes exist on the slotted EvaluateData (the fields are
`immediate_evaluation` and `num_player_clusters` etc.), so every path
raises AttributeError. -/
def mc_evaluate (b : Board) : Except PyErr Rat :=
  match get_evaluate_data b with
  | .error e => .error e
  | .ok data =>
    if data.immediate then
      .error (.attributeError "immediate_eval")
    else
      .error (.attributeError "num_red_clusters")

/-!  ## Monte Carlo expansion (`agent/search/monte_carlo/monte_carlo.py`) -/

/-- Board.__hash__ (`agent/game/board.py`, lines 177-186): returns
`hash(self._state)`, but `_state` is a dict (a defaultdict) and Python
dicts are unhashable, so the call raises TypeError. -/
def Board.pyhash (_b : Board) : Except PyErr Int :=
  .error (.typeError "unhashable type: dict")

/-- The MCTS expansion loop over the generated neighbor moves
(`monte_carlo.py`, lines 65-74): for each move a MonteCarloNode is
constructed whose constructor sets `hash_val = board.__hash__()` — the
neighbor action is never applied to the board first, so the hash taken is
of the pre-action board (and the `board.undo_action()` at the end of each
iteration pops an entry of the replayed path instead of undoing an apply
of this neighbor); the node is recorded when the hash is unseen.  The very
first `board.__hash__()` call already raises. -/
def mc_expand (b : Board) (moves : List GameAction) (discovered : List Int) :
    Except PyErr (List Int) :=
  match moves with
  | [] => .ok discovered
  | _ :: rest =>
    match Board.pyhash b with
    | .error e => .error e
    | .ok h => mc_expand b rest (if h ∈ discovered then discovered else discovered ++ [h])

/-!  ## Alpha-beta negamax over abstract game trees
(`agent/search/negamax/negamax.py`, lines 57-127)

The claim quantifies over "the same move generator and evaluator", so the
search is embedded over the tree a (board, mover) pair unfolds into: each
node carries the mover-signed static evaluation
(`sign * evaluate(board)` with the negamax sign convention), the
`board.game_over` flag, and the ordered child list produced by generating,
ordering, and applying the legal actions.  Along the claim's premise there
is no time cutoff, so the timer test at node entry is `False` and the
initial `stop` is `False`; the returned action is dropped (the claim
compares numeric values only).  Scores are `PyFloat` because the code mixes
finite evaluations with `float("inf")` window bounds; the only operations
performed — negation, comparison, `max` — are exact on floats. -/

/-- Negation of a Python float score. -/
def PyFloat.neg : PyFloat → PyFloat
  | .ninf => .pinf
  | .pinf => .ninf
  | .fin v => .fin (-v)

/-- Comparison `a <= b` on Python float scores. -/
def PyFloat.ble : PyFloat → PyFloat → Bool
  | .ninf, _ => true
  | _, .pinf => true
  | .fin a, .fin b => a ≤ b
  | .fin _, .ninf => false
  | .pinf, _ => false

/-- Comparison `a < b` on Python float scores. -/
def PyFloat.blt (a b : PyFloat) : Bool := !(b.ble a)

/-- Python `max(a, b)` on float scores. -/
def PyFloat.maxE (a b : PyFloat) : PyFloat := if a.ble b then b else a

/-- An abstract game-tree node: the signed evaluation of the node's board,
its game_over flag, and the ordered children. -/
inductive GTree where
  | node (val : PyFloat) (over : Bool) (children : List GTree)

/-- The node's signed static evaluation `sign * evaluate(board)`. -/
def GTree.val : GTree → PyFloat
  | .node v _ _ => v

/-- The node's `board.game_over` flag. -/
def GTree.over : GTree → Bool
  | .node _ o _ => o

/-- The node's ordered child list. -/
def GTree.children : GTree → List GTree
  | .node _ _ cs => cs

/-- The child loop of alphabeta_negamax (negamax.py lines 104-127),
parameterized by the recursive call `f`: each child is searched with the
negated swapped window `(-beta, -alpha)`; the returned score is negated;
`score` (None before the first child) and `alpha` are raised; the loop
breaks on the child's stop flag or on `alpha >= beta`, and the function
returns the best score with the last child's stop flag (the initial stop,
False without a time cutoff, when there are no children). -/
def abLoopF (f : GTree → PyFloat → PyFloat → PyFloat × Bool) (beta : PyFloat) :
    List GTree → Option PyFloat → PyFloat → Bool → PyFloat × Bool
  | [], score, _alpha, stop => (score.getD (.fin 0), stop)
  | c :: cs, score, alpha, _stop =>
    let r := f c beta.neg alpha.neg
    let curr := r.1.neg
    let s2 := match score with
      | none => curr
      | some s => if s.blt curr then curr else s
    let a2 := alpha.maxE s2
    if r.2 || beta.ble a2 then (s2, r.2)
    else abLoopF f beta cs (some s2) a2 r.2

/-- alphabeta_negamax (negamax.py lines 57-127) over the game tree, by
recursion on the remaining depth: at depth 0 or a game-over node it returns
the node's signed evaluation with `stop = depth >= ceil - 1` (no time
cutoff); otherwise it runs the child loop. -/
def alphabeta_negamax : Nat → GTree → Nat → PyFloat → PyFloat → PyFloat × Bool
  | 0, t, ceil, _, _ => (t.val, decide ((ceil : Int) ≤ 0 + 1))
  | d + 1, t, ceil, alpha, beta =>
    if t.over then (t.val, decide ((ceil : Int) ≤ (d + 1) + 1))
    else abLoopF (fun c a2 b2 => alphabeta_negamax d c ceil a2 b2) beta t.children none alpha false

/-- Modelled from the spec: the full-width (unpruned) negamax of the same
depth over the same move generator and evaluator — the reference the claim
compares the pruned search against.  Same leaf rule (depth exhausted or
game over returns the signed evaluation, a node with no moves returns 0),
but every child is searched and the negated results are maximized with no
window, no cutoff and no stop flag. -/
def fullwidth_negamax : Nat → GTree → PyFloat
  | 0, t => t.val
  | d + 1, t =>
    if t.over then t.val
    else
      match t.children.map (fun c => (fullwidth_negamax d c).neg) with
      | [] => .fin 0
      | x :: xs => xs.foldl PyFloat.maxE x

/-- The fail-soft window guarantee: a result `g` of searching a window
`(lo, hi)` determines the true value `v` inside the window and bounds it
outside. -/
def FailSoft (g v lo hi : PyFloat) : Prop :=
  (g.ble lo = true → v.ble g = true) ∧
  (lo.blt g = true → g.blt hi = true → g = v) ∧
  (hi.ble g = true → g.ble v = true)

/-- Counterexample tree for C4 as stated: a depth-1 search whose first
ordered move is worse than its second. -/
def cex4Tree : GTree :=
  .node (.fin 0) false [.node (.fin 0) false [], .node (.fin (-5)) false []]

/-- Witness tree for the amended C4: depth 2, no game-over nodes in the top
two plies. -/
def wit4Tree : GTree :=
  .node (.fin 0) false
    [.node (.fin 1) false [.node (.fin 3) false [], .node (.fin (-2)) false []],
     .node (.fin 2) false [.node (.fin 7) false []]]

/-!  ## Lemmas about the board mutation engine  -/

theorem opponent_opponent (c : PColor) : c.opponent.opponent = c := by
  cases c <;> rfl

theorem writeNext_eq (ms : List CellMutation) (s : Pos → CellState) (p : Pos) :
    writeNext s ms p = match lastAt ms p with
      | some m => m.next
      | none => s p := by
  induction ms generalizing s with
  | nil => rfl
  | cons m ms ih =>
    show writeNext (fun p => if p = m.pos then m.next else s p) ms p = _
    rw [ih]
    cases h : lastAt ms p with
    | some m' => simp [lastAt, h]
    | none =>
      simp only [lastAt, h]
      by_cases hp : m.pos = p
      · subst hp; simp
      · have hp2 : ¬ p = m.pos := fun he => hp (Eq.symm he)
        simp [hp, hp2]

theorem writePrev_eq (ms : List CellMutation) (s : Pos → CellState) (p : Pos) :
    writePrev s ms p = match lastAt ms p with
      | some m => m.prev
      | none => s p := by
  induction ms generalizing s with
  | nil => rfl
  | cons m ms ih =>
    show writePrev (fun p => if p = m.pos then m.prev else s p) ms p = _
    rw [ih]
    cases h : lastAt ms p with
    | some m' => simp [lastAt, h]
    | none =>
      simp only [lastAt, h]
      by_cases hp : m.pos = p
      · subst hp; simp
      · have hp2 : ¬ p = m.pos := fun he => hp (Eq.symm he)
        simp [hp, hp2]

theorem lastAt_mem {ms : List CellMutation} {p : Pos} {m : CellMutation}
    (h : lastAt ms p = some m) : m ∈ ms ∧ m.pos = p := by
  induction ms with
  | nil => simp [lastAt] at h
  | cons x xs ih =>
    simp only [lastAt] at h
    cases hx : lastAt xs p with
    | some m' =>
      rw [hx] at h
      obtain ⟨h1, h2⟩ := ih (hx.trans (by injection h with h; rw [h]))
      exact ⟨List.mem_cons_of_mem _ h1, h2⟩
    | none =>
      rw [hx] at h
      by_cases hp : x.pos = p
      · simp [hp] at h; subst h; exact ⟨List.mem_cons_self _ _, hp⟩
      · simp [hp] at h

theorem lastAt_none {ms : List CellMutation} {p : Pos}
    (h : ∀ m ∈ ms, m.pos ≠ p) : lastAt ms p = none := by
  induction ms with
  | nil => rfl
  | cons x xs ih =>
    simp only [lastAt, ih (fun m hm => h m (List.mem_cons_of_mem _ hm)),
      h x (List.mem_cons_self _ _)]
    simp

theorem lastAt_nodup {ms : List CellMutation} {m : CellMutation}
    (hnd : (ms.map (fun x => x.pos)).Nodup) (hm : m ∈ ms) :
    lastAt ms m.pos = some m := by
  induction ms with
  | nil => simp at hm
  | cons x xs ih =>
    simp only [List.map_cons, List.nodup_cons] at hnd
    rcases List.mem_cons.mp hm with h | h
    · subst h
      have : lastAt xs m.pos = none := by
        apply lastAt_none
        intro m' hm' he
        exact hnd.1 (he ▸ List.mem_map_of_mem _ hm')
      simp [lastAt, this]
    · simp [lastAt, ih hnd.2 h]

theorem write_roundtrip (ms : List CellMutation) (s : Pos → CellState)
    (hprev : ∀ m ∈ ms, m.prev = s m.pos) (p : Pos) :
    writePrev (writeNext s ms) ms p = s p := by
  rw [writePrev_eq]
  cases h : lastAt ms p with
  | some m =>
    obtain ⟨hmem, hpos⟩ := lastAt_mem h
    simp [hprev m hmem, hpos]
  | none => rw [writeNext_eq, h]

theorem apply_action_ok {b b' : Board} {a : GameAction}
    (h : b.apply_action a false = .ok b') :
    ∃ bm, (match a with
           | .spawn pos => b.spawn pos
           | .spread pos dir => b.spread pos dir) = .ok bm ∧
      b' = ⟨writeNext b.state bm.cell_mutations, b.turn_color.opponent, b.true_turn,
        b.turn_count + 1, bm :: b.history⟩ := by
  unfold Board.apply_action at h
  cases hm : (match a with
              | .spawn pos => b.spawn pos
              | .spread pos dir => b.spread pos dir) with
  | error e => rw [hm] at h; exact absurd h (by simp [applyMut])
  | ok bm =>
    rw [hm] at h
    unfold applyMut at h
    simp only [if_neg (by simp : ¬ (false = true))] at h
    exact ⟨bm, rfl, by injection h with h; exact h.symm⟩

theorem spawn_ok_prev {b : Board} {pos : Pos} {bm : BoardMutation}
    (h : b.spawn pos = .ok bm) : ∀ m ∈ bm.cell_mutations, m.prev = b.state m.pos := by
  unfold Board.spawn at h
  split at h
  · exact absurd h (by simp)
  split at h
  · exact absurd h (by simp)
  injection h with h
  subst h
  intro m hm
  simp only [List.mem_singleton] at hm
  subst hm
  rfl

theorem spread_ok_prev {b : Board} {pos : Pos} {dir : Dir} {bm : BoardMutation}
    (h : b.spread pos dir = .ok bm) : ∀ m ∈ bm.cell_mutations, m.prev = b.state m.pos := by
  unfold Board.spread at h
  split at h
  · exact absurd h (by simp)
  split at h
  · exact absurd h (by simp)
  injection h with h
  subst h
  intro m hm
  simp only [List.mem_cons, List.mem_map] at hm
  rcases hm with hm | ⟨t, _, hm⟩
  · subst hm; rfl
  · subst hm; rfl

theorem undo_apply {b b' : Board} {a : GameAction}
    (h : b.apply_action a false = .ok b') : b'.undo_action = b := by
  obtain ⟨bm, hbm, hb'⟩ := apply_action_ok h
  have hprev : ∀ m ∈ bm.cell_mutations, m.prev = b.state m.pos := by
    cases a with
    | spawn pos => exact spawn_ok_prev hbm
    | spread pos dir => exact spread_ok_prev hbm
  subst hb'
  obtain ⟨s, tc, tt, n, hist⟩ := b
  unfold Board.undo_action
  simp only []
  have h1 : writePrev (writeNext s bm.cell_mutations) bm.cell_mutations = s :=
    funext fun p => write_roundtrip _ _ hprev p
  rw [h1, opponent_opponent, Int.add_sub_cancel]

/-!  ## Geometry of spread rays (toroidal wrap) -/

theorem addMul_ne_fin : ∀ (d : Dir) (m : Fin 7), 1 ≤ m.val → ∀ p : Pos,
    p.addMul d (m.val : Int) ≠ p := by decide

theorem addMul_inj_fin : ∀ (d : Dir) (m n : Fin 7), m ≠ n → ∀ p : Pos,
    p.addMul d (m.val : Int) ≠ p.addMul d (n.val : Int) := by decide

theorem addMul_ne {d : Dir} {mult : Nat} (h1 : 1 ≤ mult) (h7 : mult < 7) (p : Pos) :
    p.addMul d (mult : Int) ≠ p :=
  addMul_ne_fin d ⟨mult, h7⟩ h1 p

theorem addMul_inj {d : Dir} {m n : Nat} (hm : m < 7) (hn : n < 7) (hmn : m ≠ n) (p : Pos) :
    p.addMul d (m : Int) ≠ p.addMul d (n : Int) :=
  addMul_inj_fin d ⟨m, hm⟩ ⟨n, hn⟩ (by simp [Fin.ext_iff, hmn]) p

/-!  ## C1: apply/undo round trip -/

/-- C1: for every board and every sequence of N exploratory (non-concrete)
successful applies followed by N undos, the board (its full cell map, turn
color and turn count, and in fact every field) equals its pre-sequence value;
and an undo with an empty mutation history changes nothing. -/
theorem c1_roundtrip :
    (∀ (b bN : Board) (acts : List GameAction),
      applySeq b acts = .ok bN → undoN acts.length bN = b) ∧
    (∀ b : Board, b.history = [] → b.undo_action = b) := by
  constructor
  · intro b bN acts
    induction acts generalizing b with
    | nil =>
      intro h
      injection h with h
      simpa using h.symm
    | cons a rest ih =>
      intro h
      unfold applySeq at h
      cases ha : b.apply_action a false with
      | error e => rw [ha] at h; exact absurd h (by simp)
      | ok b1 =>
        rw [ha] at h
        show (undoN rest.length bN).undo_action = b
        rw [ih b1 h, undo_apply ha]
  · intro b hb
    unfold Board.undo_action
    rw [hb]

/-- Witness for C1 at a concrete board and two-action sequence. -/
theorem c1_roundtrip_witness :
    undoN 2 wit1After = wit1Board ∧ wit1Board.undo_action = wit1Board :=
  ⟨c1_roundtrip.1 wit1Board wit1After wit1Acts rfl, c1_roundtrip.2 wit1Board rfl⟩

/-!  ## Additional lastAt helpers -/

theorem writeNext_lastAt {s : Pos → CellState} {muts : List CellMutation} {p : Pos}
    {m : CellMutation} (h : lastAt muts p = some m) : writeNext s muts p = m.next := by
  rw [writeNext_eq, h]

theorem lastAt_cons_tail_none {m : CellMutation} {ms : List CellMutation} {p : Pos}
    (h : lastAt ms p = none) :
    lastAt (m :: ms) p = if m.pos = p then some m else none := by
  simp [lastAt, h]

theorem lastAt_cons_tail_some {m m' : CellMutation} {ms : List CellMutation} {p : Pos}
    (h : lastAt ms p = some m') : lastAt (m :: ms) p = some m' := by
  simp [lastAt, h]

/-!  ## C2: structure of the spread mutation -/

/-- C2: spreading a mover-owned power-k stack produces a BoardMutation whose
cell mutations are the source-emptying mutation followed by exactly k
destination mutations (each at a position distinct from the source, each
incrementing that cell and claiming it for the mover), and after applying
the action the source cell has power 0 and no owner. -/
theorem c2_spread_structure (b : Board) (bm : BoardMutation) (b' : Board)
    (pos : Pos) (dir : Dir) (k : Nat)
    (hc : (b.state pos).color = some b.turn_color)
    (hk : (b.state pos).power = k) (hk1 : 1 ≤ k) (hk6 : k ≤ MAX_CELL_POWER)
    (hbm : b.spread pos dir = .ok bm)
    (hb' : b.apply_action (.spread pos dir) false = .ok b') :
    bm.cell_mutations.length = k + 1 ∧
    bm.cell_mutations.head? = some ⟨pos, b.state pos, emptyCell pos⟩ ∧
    bm.cell_mutations.tail.length = k ∧
    (b'.state pos).power = 0 ∧ (b'.state pos).color = none ∧
    (∀ m ∈ bm.cell_mutations.tail, m.pos ≠ pos ∧
      m.next = mkCellState m.pos (some b.turn_color) ((b.state m.pos).power + 1)) := by
  have hpow : ¬ (b.state pos).power = 0 := by omega
  have hcol : ¬ (b.state pos).color ≠ some b.turn_color := by simp [hc]
  obtain ⟨bm2, hbm2, hb'eq⟩ := apply_action_ok hb'
  simp only [] at hbm2
  have heq : bm2 = bm := by
    have h12 : (Except.ok bm : Except PyErr BoardMutation) = Except.ok bm2 := hbm.symm.trans hbm2
    injection h12 with h12
    exact h12.symm
  subst heq
  unfold Board.spread at hbm
  rw [if_neg hpow, if_neg hcol] at hbm
  simp only [] at hbm
  injection hbm with hbm
  have hk6n : (b.state pos).power ≤ 6 := hk ▸ hk6
  have htail : ∀ m ∈ bm2.cell_mutations.tail, m.pos ≠ pos ∧
      m.next = mkCellState m.pos (some b.turn_color) ((b.state m.pos).power + 1) := by
    rw [← hbm]
    simp only [List.tail_cons, List.map_map]
    intro m hm
    rw [List.mem_map] at hm
    obtain ⟨a, ha, hmm⟩ := hm
    rw [List.mem_range] at ha
    subst hmm
    refine ⟨?_, rfl⟩
    show pos.addMul dir ((a : Int) + 1) ≠ pos
    have hcast : ((a : Int) + 1) = (((a + 1 : Nat)) : Int) := by push_cast; ring
    rw [hcast]
    exact addMul_ne (by omega) (by omega) pos
  have hnone : lastAt bm2.cell_mutations.tail pos = none :=
    lastAt_none (fun m hm => (htail m hm).1)
  have hhead : bm2.cell_mutations.head? = some ⟨pos, b.state pos, emptyCell pos⟩ := by
    rw [← hbm]
    rfl
  have hcons : bm2.cell_mutations =
      (⟨pos, b.state pos, emptyCell pos⟩ : CellMutation) :: bm2.cell_mutations.tail := by
    rw [← hbm]
    rfl
  have hlast : lastAt bm2.cell_mutations pos =
      some (⟨pos, b.state pos, emptyCell pos⟩ : CellMutation) := by
    rw [hcons, lastAt_cons_tail_none hnone]
    simp
  have hstate : b'.state pos = emptyCell pos := by
    rw [hb'eq]
    show writeNext b.state bm2.cell_mutations pos = emptyCell pos
    rw [writeNext_lastAt hlast]
  have hlen : bm2.cell_mutations.length = k + 1 := by
    rw [← hbm]
    simp [hk]
  have hlent : bm2.cell_mutations.tail.length = k := by
    rw [← hbm]
    simp [hk]
  exact ⟨hlen, hhead, hlent,
    by rw [hstate]; rfl, by rw [hstate]; rfl, htail⟩

/-- Witness for C2: the concrete power-2 spread on `wit2Board`. -/
theorem c2_spread_structure_witness :
    wit2Mutation.cell_mutations.length = 2 + 1 ∧
    wit2Mutation.cell_mutations.head? =
      some ⟨⟨2, 2⟩, wit2Board.state ⟨2, 2⟩, emptyCell ⟨2, 2⟩⟩ ∧
    wit2Mutation.cell_mutations.tail.length = 2 ∧
    (wit2After.state ⟨2, 2⟩).power = 0 ∧ (wit2After.state ⟨2, 2⟩).color = none := by
  have h := c2_spread_structure wit2Board wit2Mutation wit2After ⟨2, 2⟩ .downRight 2
    (by decide) (by decide) (by decide) (by decide) rfl rfl
  exact ⟨h.1, h.2.1, h.2.2.1, h.2.2.2.1, h.2.2.2.2.1⟩

/-!  ## C10: spreading onto a full stack removes it -/

/-- C10: if a spread destination cell already holds MAX_CELL_POWER, applying
the spread leaves that cell empty — power 0 and no owner — because the
incremented CellState is normalized away by CellState.__post_init__ rather
than clamped. -/
theorem c10_spread_cap_empties (b : Board) (b' : Board) (pos : Pos) (dir : Dir) (j : Nat)
    (hc : (b.state pos).color = some b.turn_color)
    (hk1 : 1 ≤ (b.state pos).power) (hk6 : (b.state pos).power ≤ MAX_CELL_POWER)
    (hj : j < (b.state pos).power)
    (hdest : (b.state (pos.addMul dir ((j : Int) + 1))).power = MAX_CELL_POWER)
    (hb' : b.apply_action (.spread pos dir) false = .ok b') :
    (b'.state (pos.addMul dir ((j : Int) + 1))).power = 0 ∧
    (b'.state (pos.addMul dir ((j : Int) + 1))).color = none := by
  have hpow : ¬ (b.state pos).power = 0 := by omega
  have hk6n : (b.state pos).power ≤ 6 := hk6
  have hcol : ¬ (b.state pos).color ≠ some b.turn_color := by simp [hc]
  obtain ⟨bm, hbm, hb'eq⟩ := apply_action_ok hb'
  simp only [] at hbm
  unfold Board.spread at hbm
  rw [if_neg hpow, if_neg hcol] at hbm
  simp only [] at hbm
  injection hbm with hbm
  have hcast : ∀ i : Nat, ((i : Int) + 1) = (((i + 1 : Nat)) : Int) := by
    intro i; push_cast; ring
  have hnodup : ((((List.range (b.state pos).power).map
      (fun (i : Nat) => pos.addMul dir ((i : Int) + 1))).map
      (fun t => (⟨t, b.state t, mkCellState t (some b.turn_color)
        ((b.state t).power + 1)⟩ : CellMutation))).map (fun m => m.pos)).Nodup := by
    rw [List.map_map, List.map_map]
    show ((List.range (b.state pos).power).map
      (fun (i : Nat) => pos.addMul dir ((i : Int) + 1))).Nodup
    apply List.Nodup.map_on ?_ (List.nodup_range _)
    intro x hx y hy hxy
    by_contra hne
    rw [List.mem_range] at hx hy
    exact addMul_inj (d := dir) (m := x + 1) (n := y + 1) (by omega) (by omega) (by omega) pos
      (by rw [← hcast x, ← hcast y, hxy])
  have hmem : (⟨pos.addMul dir ((j : Int) + 1), b.state (pos.addMul dir ((j : Int) + 1)),
      mkCellState (pos.addMul dir ((j : Int) + 1)) (some b.turn_color)
        ((b.state (pos.addMul dir ((j : Int) + 1))).power + 1)⟩ : CellMutation) ∈
      (((List.range (b.state pos).power).map
        (fun (i : Nat) => pos.addMul dir ((i : Int) + 1))).map
        (fun t => (⟨t, b.state t, mkCellState t (some b.turn_color)
          ((b.state t).power + 1)⟩ : CellMutation))) := by
    apply List.mem_map_of_mem
    apply List.mem_map_of_mem
    rw [List.mem_range]
    exact hj
  have hlastd := lastAt_nodup hnodup hmem
  have hlast : lastAt bm.cell_mutations (pos.addMul dir ((j : Int) + 1)) =
      some (⟨pos.addMul dir ((j : Int) + 1), b.state (pos.addMul dir ((j : Int) + 1)),
        mkCellState (pos.addMul dir ((j : Int) + 1)) (some b.turn_color)
          ((b.state (pos.addMul dir ((j : Int) + 1))).power + 1)⟩ : CellMutation) := by
    rw [← hbm]
    exact lastAt_cons_tail_some hlastd
  have hstate : b'.state (pos.addMul dir ((j : Int) + 1)) =
      mkCellState (pos.addMul dir ((j : Int) + 1)) (some b.turn_color)
        ((b.state (pos.addMul dir ((j : Int) + 1))).power + 1) := by
    rw [hb'eq]
    exact writeNext_lastAt hlast
  rw [hstate, hdest]
  constructor <;> rfl

/-- Witness for C10: spreading red's power-2 stack over a blue power-6 stack
at (2,3) leaves (2,3) empty. -/
theorem c10_spread_cap_empties_witness :
    (wit10After.state (Pos.addMul ⟨2, 2⟩ .downRight (((0 : Nat) : Int) + 1))).power = 0 ∧
    (wit10After.state (Pos.addMul ⟨2, 2⟩ .downRight (((0 : Nat) : Int) + 1))).color = none := by
  have h := c10_spread_cap_empties wit10Board wit10After ⟨2, 2⟩ .downRight 0
    (by decide) (by decide) (by decide) (by decide) (by decide) rfl
  exact h

/-!  ## C5: Board.apply validates and raises -/

/-- C5 (amended): Board.apply_action raises exactly on a Spawn with total
power at capacity or onto an occupied cell, and on a Spread from an empty or
foreign-owned cell; otherwise it computes the BoardMutation and writes the
mutated cells without further checks. -/
theorem c5_apply_validates : ∀ (b : Board) (conc : Bool),
    (∀ pos : Pos, exErr (b.apply_action (.spawn pos) conc) = true ↔
      (b.total_power ≥ MAX_TOTAL_POWER ∨ b.pos_occupied pos = true)) ∧
    (∀ (pos : Pos) (dir : Dir), exErr (b.apply_action (.spread pos dir) conc) = true ↔
      ((b.state pos).power = 0 ∨ (b.state pos).color ≠ some b.turn_color)) := by
  intro b conc
  have hspawn : ∀ pos : Pos, b.apply_action (.spawn pos) conc = applyMut b (b.spawn pos) conc :=
    fun _ => rfl
  have hspread : ∀ (pos : Pos) (dir : Dir),
      b.apply_action (.spread pos dir) conc = applyMut b (b.spread pos dir) conc :=
    fun _ _ => rfl
  have herr : ∀ e : PyErr, exErr (applyMut b (.error e) conc) = true := fun _ => rfl
  have hok : ∀ bm : BoardMutation, exErr (applyMut b (.ok bm) conc) = false := by
    intro bm
    cases conc <;> rfl
  constructor
  · intro pos
    rw [hspawn pos]
    unfold Board.spawn
    by_cases h1 : b.total_power ≥ MAX_TOTAL_POWER
    · rw [if_pos h1]
      simp [herr, h1]
    · rw [if_neg h1]
      by_cases h2 : b.pos_occupied pos = true
      · rw [if_pos h2]
        simp [herr, h1, h2]
      · rw [if_neg h2]
        simp [hok, h1, h2]
  · intro pos dir
    rw [hspread pos dir]
    unfold Board.spread
    by_cases h1 : (b.state pos).power = 0
    · rw [if_pos h1]
      simp [herr, h1]
    · rw [if_neg h1]
      by_cases h2 : (b.state pos).color ≠ some b.turn_color
      · rw [if_pos h2]
        simp [herr, h1, h2]
      · rw [if_neg h2]
        simp only []
        simp [hok, h1, h2]

/-- Counterexample for C5 as stated ("apply performs no validity checking
and never raises"): spawning onto the occupied cell (0,0) raises. -/
theorem c5_apply_raises_counterexample :
    exErr (cexOccBoard.apply_action (.spawn ⟨0, 0⟩) false) = true ∧
    cexOccBoard.apply_action (.spawn ⟨0, 0⟩) false =
      .error (.exception "SPAWN: cell occupied") := by
  exact ⟨rfl, rfl⟩

/-!  ## C3: generator totality -/

theorem foldl_append_flatMap (l : List α) (g : α → List β) :
    ∀ init : List β, l.foldl (fun acc x => acc ++ g x) init = init ++ l.flatMap g := by
  induction l with
  | nil => intro init; simp
  | cons x xs ih =>
    intro init
    show List.foldl _ (init ++ g x) xs = _
    rw [ih (init ++ g x)]
    simp

theorem sum_lt_length_exists_zero (l : List α) (f : α → Nat)
    (h : (l.map f).sum < l.length) : ∃ x ∈ l, f x = 0 := by
  induction l with
  | nil => simp at h
  | cons x xs ih =>
    by_cases hx : f x = 0
    · exact ⟨x, List.mem_cons_self _ _, hx⟩
    · have : (xs.map f).sum < xs.length := by
        simp only [List.map_cons, List.sum_cons, List.length_cons] at h
        omega
      obtain ⟨y, hy, hy0⟩ := ih this
      exact ⟨y, List.mem_cons_of_mem _ hy, hy0⟩

/-- C3 (amended): in full (exhaustive) mode, get_legal_moves returns at
least one action whenever the total power is under capacity or the mover
owns at least one piece, for any board satisfying the cell invariants.
(Reduced mode does not have this property; see the counterexample.) -/
theorem c3_full_mode_total (b : Board) (color : PColor)
    (hwf : wf_board b = true)
    (hprem : b.total_power < MAX_TOTAL_POWER ∨ b.player_cells color ≠ []) :
    (get_legal_moves b color true).1 ≠ [] := by
  have hwf' := List.all_eq_true.mp hwf
  unfold get_legal_moves
  by_cases hel : (check_endgame b color).1.length > 0
  · rw [if_pos hel]
    intro hc
    simp only [] at hc
    rw [hc] at hel
    simp at hel
  · rw [if_neg hel]
    simp only []
    have hinit : (check_endgame b color).1 = [] := by
      rcases hckl : (check_endgame b color).1 with _ | ⟨x, xs⟩
      · rfl
      · rw [hckl] at hel; exact absurd (by simp) hel
    rw [hinit, foldl_append_flatMap]
    simp only [List.nil_append]
    have hga : glmGetAll b color true = true := by simp [glmGetAll]
    rcases hprem with hcap | hown
    · -- some cell is empty: it contributes a Spawn
      have hcap' : b.total_power < 49 := hcap
      have hsum : (allPos.map (fun p => (b.state p).power)).sum < allPos.length := by
        have h49 : allPos.length = 49 := by decide
        have htp : b.total_power = (allPos.map (fun p => (b.state p).power)).sum := by
          unfold Board.total_power Board.get_cells
          rw [List.map_map]
          rfl
        omega
      obtain ⟨p, hp, hp0⟩ := sum_lt_length_exists_zero allPos (fun p => (b.state p).power) hsum
      have hwfp := hwf' p hp
      rw [Bool.and_eq_true, decide_eq_true_eq] at hwfp
      have hpos : (b.state p).pos = p := hwfp.1
      apply List.ne_nil_of_mem (a := GameAction.spawn p)
      rw [List.mem_flatMap]
      refine ⟨b.state p, List.mem_map_of_mem _ hp, ?_⟩
      unfold glmCellActions
      rw [hga, hpos]
      have hocc : ¬ (b.pos_occupied p = true) := by
        unfold Board.pos_occupied
        simp [hp0, EMPTY_POWER]
      rw [if_pos hocc, if_pos hcap]
      simp
    · -- the mover owns a cell: it contributes six Spreads
      obtain ⟨cell, hcell⟩ := List.exists_mem_of_ne_nil _ hown
      have hfil := List.mem_filter.mp hcell
      obtain ⟨hmem, hcol⟩ := hfil
      rw [decide_eq_true_eq] at hcol
      obtain ⟨p, hp, hpc⟩ := List.mem_map.mp hmem
      have hwfp := hwf' p hp
      rw [Bool.and_eq_true, decide_eq_true_eq] at hwfp
      have hpos : (b.state p).pos = p := hwfp.1
      have hpow : ¬ ((b.state p).power = 0) := by
        intro h0
        have h2 := hwfp.2
        rw [h0] at h2
        rw [hpc] at h2
        simp [hcol] at h2
      apply List.ne_nil_of_mem (a := GameAction.spread p .downRight)
      rw [List.mem_flatMap]
      refine ⟨cell, hmem, ?_⟩
      unfold glmCellActions
      rw [hga]
      have hcpos : cell.pos = p := by rw [← hpc, hpos]
      rw [hcpos]
      have hocc : b.pos_occupied p = true := by
        unfold Board.pos_occupied
        simp only [EMPTY_POWER, gt_iff_lt, decide_eq_true_eq]
        omega
      rw [if_neg (by simp [hocc])]
      have hcol' : (b.state p).color = some color := by rw [hpc]; exact hcol
      rw [if_pos hcol']
      rw [if_neg (by simp : ¬ ((true = false) ∧ (b.state p).power = 1 ∧ b.total_power > MIN_TOTAL_POWER))]
      simp [hexDirs]

/-- Witness for the amended C3 at a concrete board. -/
theorem c3_full_mode_total_witness : (get_legal_moves cb6Board .red true).1 ≠ [] :=
  c3_full_mode_total cb6Board .red (by decide) (Or.inl (by decide))

/-- Counterexample for C3 as stated: in reduced mode, on a board whose total
power is below capacity (so the premise holds), both generators return zero
actions for red, who owns no piece adjacent to which a reduced spawn could
be placed. -/
theorem c3_reduced_mode_counterexample :
    (get_legal_moves cex3Board .red false).1 = [] ∧
    get_optimized_legal_moves cex3Board .red false = .reduced [] false ∧
    cex3Board.total_power < MAX_TOTAL_POWER := by
  refine ⟨by decide, by decide, by decide⟩

/-!  ## C6: the endgame shortcut's "mostly unstacked" condition -/

/-- C6 (code bug): check_endgame declares endgame (returns a non-empty
action list) on a board where both of the opponent's two pieces are stacked
(power 2), because `single_power = list(map(lambda x: x, bool_single_power))`
is an identity map, making the "mostly single-power" test
`len(single_power) >= len(bool_single_power) - 1` vacuously true. -/
theorem c6_endgame_triggers_on_stacked :
    (check_endgame cb6Board .red).1 ≠ [] ∧
    ((cb6Board.player_cells .blue).filter (fun c => decide (1 < c.power))).length = 2 ∧
    (cb6Board.player_cells .blue).length = 2 := by
  refine ⟨by decide, by decide, by decide⟩

/-!  ## C7: Cluster.get_power -/

/-- C7 (code bug): Cluster.get_power is `sum(self.cells)`, which sums the
cells dict's keys — the CPython hashes of the member positions — not the
member cells' powers; on the singleton cluster of a power-3 piece at (0,0)
it returns hash((0,0)) = -8458139203682520985 instead of 3, so the
evaluator's power-dominance comparison is not a comparison of summed
powers. -/
theorem c7_get_power_sums_hashes :
    (Cluster.ofCell (mkCellState ⟨0, 0⟩ (some .red) 3)).get_power = -8458139203682520985 ∧
    ((Cluster.ofCell (mkCellState ⟨0, 0⟩ (some .red) 3)).member_powers).sum = 3 ∧
    (Cluster.ofCell (mkCellState ⟨0, 0⟩ (some .red) 3)).get_power ≠
      ((((Cluster.ofCell (mkCellState ⟨0, 0⟩ (some .red) 3)).member_powers).sum : Int)) := by
  refine ⟨by decide, by decide, by decide⟩

/-!  ## C8: the normalized Monte Carlo evaluator -/

/-- C8 (code bug): the Monte Carlo mc_evaluate cannot return the normalized
value the spec describes — on the empty board (an immediate terminal for
the evaluated side) it raises AttributeError for the nonexistent field
`immediate_eval` instead of returning 0 or 1. -/
theorem c8_mc_evaluate_crashes :
    mc_evaluate (boardOf []) = .error (.attributeError "immediate_eval") := rfl

/-!  ## C9: the MCTS expansion step -/

/-- C9 (code bug): the expansion step cannot hash the resulting board — it
hashes the shared board itself (the child action is never applied first),
and Board.__hash__ raises TypeError because the state dict is unhashable;
the first neighbor of the very first expansion already fails. -/
theorem c9_expansion_step_crashes :
    mc_expand (boardOf []) [.spawn ⟨3, 3⟩] [] = .error (.typeError "unhashable type: dict") ∧
    Board.pyhash (boardOf []) = .error (.typeError "unhashable type: dict") :=
  ⟨rfl, rfl⟩

/-!  ## Order lemmas for PyFloat scores -/

theorem PyFloat.ble_refl (a : PyFloat) : a.ble a = true := by
  cases a <;> simp [PyFloat.ble]

theorem PyFloat.ble_trans {a b c : PyFloat} (h1 : a.ble b = true) (h2 : b.ble c = true) :
    a.ble c = true := by
  cases a <;> cases b <;> cases c <;> simp_all [PyFloat.ble]
  omega

theorem PyFloat.ble_total (a b : PyFloat) : a.ble b = true ∨ b.ble a = true := by
  cases a <;> cases b <;> simp [PyFloat.ble]
  omega

theorem PyFloat.ble_antisymm {a b : PyFloat} (h1 : a.ble b = true) (h2 : b.ble a = true) :
    a = b := by
  cases a <;> cases b <;> simp_all [PyFloat.ble]
  omega

theorem PyFloat.ninf_ble (a : PyFloat) : PyFloat.ble .ninf a = true := by
  cases a <;> rfl

theorem PyFloat.ble_pinf (a : PyFloat) : a.ble .pinf = true := by
  cases a <;> rfl

theorem PyFloat.ble_ninf_eq {a : PyFloat} (h : a.ble .ninf = true) : a = .ninf := by
  cases a <;> simp_all [PyFloat.ble]

theorem PyFloat.pinf_ble_eq {a : PyFloat} (h : PyFloat.ble .pinf a = true) : a = .pinf := by
  cases a <;> simp_all [PyFloat.ble]

theorem PyFloat.neg_neg (a : PyFloat) : a.neg.neg = a := by
  cases a <;> simp [PyFloat.neg]

theorem PyFloat.ble_neg (a b : PyFloat) : a.neg.ble b.neg = b.ble a := by
  cases a <;> cases b <;> simp [PyFloat.neg, PyFloat.ble]

theorem PyFloat.blt_imp_ble {a b : PyFloat} (h : a.blt b = true) : a.ble b = true := by
  unfold PyFloat.blt at h
  rcases PyFloat.ble_total a b with h2 | h2
  · exact h2
  · simp [h2] at h

theorem PyFloat.blt_iff {a b : PyFloat} : a.blt b = true ↔ b.ble a = false := by
  unfold PyFloat.blt
  simp

theorem PyFloat.not_blt_self (a : PyFloat) : a.blt a = false := by
  unfold PyFloat.blt
  simp [PyFloat.ble_refl]

theorem PyFloat.ble_blt_trans {a b c : PyFloat} (h1 : a.ble b = true) (h2 : b.blt c = true) :
    a.blt c = true := by
  rw [PyFloat.blt_iff] at h2 ⊢
  by_contra h
  rw [Bool.not_eq_false] at h
  exact absurd (PyFloat.ble_trans h h1) (by simp [h2])

theorem PyFloat.blt_ble_trans {a b c : PyFloat} (h1 : a.blt b = true) (h2 : b.ble c = true) :
    a.blt c = true := by
  rw [PyFloat.blt_iff] at h1 ⊢
  by_contra h
  rw [Bool.not_eq_false] at h
  exact absurd (PyFloat.ble_trans h2 h) (by simp [h1])

theorem PyFloat.le_maxE_left (a b : PyFloat) : a.ble (a.maxE b) = true := by
  unfold PyFloat.maxE
  by_cases h : a.ble b = true
  · simp [h]
  · simp [h, PyFloat.ble_refl]

theorem PyFloat.le_maxE_right (a b : PyFloat) : b.ble (a.maxE b) = true := by
  unfold PyFloat.maxE
  by_cases h : a.ble b = true
  · simp [h, PyFloat.ble_refl]
  · rcases PyFloat.ble_total a b with h2 | h2
    · simp [h2] at h
    · simp [h, h2]

theorem PyFloat.maxE_lub {a b c : PyFloat} (h1 : a.ble c = true) (h2 : b.ble c = true) :
    (a.maxE b).ble c = true := by
  unfold PyFloat.maxE
  by_cases h : a.ble b = true <;> simp [h, h1, h2]

theorem PyFloat.maxE_cases (a b : PyFloat) : a.maxE b = a ∨ a.maxE b = b := by
  unfold PyFloat.maxE
  by_cases h : a.ble b = true <;> simp [h]

theorem PyFloat.maxE_eq_left {a b : PyFloat} (h : b.ble a = true) : a.maxE b = a := by
  unfold PyFloat.maxE
  by_cases h2 : a.ble b = true
  · simp [h2, PyFloat.ble_antisymm h2 h]
  · simp [h2]

theorem PyFloat.blt_max (s curr : PyFloat) :
    (if s.blt curr then curr else s) = s.maxE curr := by
  by_cases h : s.blt curr = true
  · rw [if_pos h]
    unfold PyFloat.maxE
    rw [if_pos (PyFloat.blt_imp_ble h)]
  · rw [if_neg (by simp [h])]
    rw [PyFloat.blt_iff] at h
    rw [Bool.not_eq_false] at h
    exact (PyFloat.maxE_eq_left h).symm

theorem PyFloat.maxE_collapse {alpha s s2 : PyFloat} (h : s.ble s2 = true) :
    (alpha.maxE s).maxE s2 = alpha.maxE s2 := by
  apply PyFloat.ble_antisymm
  · apply PyFloat.maxE_lub
    · apply PyFloat.maxE_lub
      · exact PyFloat.le_maxE_left _ _
      · exact PyFloat.ble_trans h (PyFloat.le_maxE_right _ _)
    · exact PyFloat.le_maxE_right _ _
  · apply PyFloat.maxE_lub
    · exact PyFloat.ble_trans (PyFloat.le_maxE_left alpha s)
        (PyFloat.le_maxE_left (alpha.maxE s) s2)
    · exact PyFloat.le_maxE_right _ _

theorem PyFloat.maxE_blt {a b c : PyFloat} (h1 : a.blt c = true) (h2 : b.blt c = true) :
    (a.maxE b).blt c = true := by
  rcases PyFloat.maxE_cases a b with h | h <;> rw [h] <;> assumption

theorem foldl_maxE_le_init (g : GTree → PyFloat) (cs : List GTree) (init : PyFloat) :
    init.ble (cs.foldl (fun acc c => acc.maxE (g c)) init) = true := by
  induction cs generalizing init with
  | nil => exact PyFloat.ble_refl init
  | cons c cs ih =>
    exact PyFloat.ble_trans (PyFloat.le_maxE_left init (g c)) (ih (init.maxE (g c)))

/-!  ## Unfolding equations for the alpha-beta child loop -/

theorem abLoopF_nil (f : GTree → PyFloat → PyFloat → PyFloat × Bool) (beta : PyFloat)
    (score : Option PyFloat) (alpha : PyFloat) (stop : Bool) :
    abLoopF f beta [] score alpha stop = (score.getD (.fin 0), stop) := rfl

theorem abLoopF_cons_none (f : GTree → PyFloat → PyFloat → PyFloat × Bool) (beta : PyFloat)
    (c : GTree) (cs : List GTree) (alpha : PyFloat) (stop : Bool) :
    abLoopF f beta (c :: cs) none alpha stop =
      (if (f c beta.neg alpha.neg).2 ||
          beta.ble (alpha.maxE (f c beta.neg alpha.neg).1.neg)
       then ((f c beta.neg alpha.neg).1.neg, (f c beta.neg alpha.neg).2)
       else abLoopF f beta cs (some (f c beta.neg alpha.neg).1.neg)
         (alpha.maxE (f c beta.neg alpha.neg).1.neg) (f c beta.neg alpha.neg).2) := rfl

theorem abLoopF_cons_some (f : GTree → PyFloat → PyFloat → PyFloat × Bool) (beta : PyFloat)
    (c : GTree) (cs : List GTree) (s alpha : PyFloat) (stop : Bool) :
    abLoopF f beta (c :: cs) (some s) alpha stop =
      (if (f c beta.neg alpha.neg).2 ||
          beta.ble (alpha.maxE (s.maxE (f c beta.neg alpha.neg).1.neg))
       then (s.maxE (f c beta.neg alpha.neg).1.neg, (f c beta.neg alpha.neg).2)
       else abLoopF f beta cs (some (s.maxE (f c beta.neg alpha.neg).1.neg))
         (alpha.maxE (s.maxE (f c beta.neg alpha.neg).1.neg)) (f c beta.neg alpha.neg).2) := by
  have h : abLoopF f beta (c :: cs) (some s) alpha stop =
      (if (f c beta.neg alpha.neg).2 ||
          beta.ble (alpha.maxE (if s.blt (f c beta.neg alpha.neg).1.neg
            then (f c beta.neg alpha.neg).1.neg else s))
       then ((if s.blt (f c beta.neg alpha.neg).1.neg
            then (f c beta.neg alpha.neg).1.neg else s), (f c beta.neg alpha.neg).2)
       else abLoopF f beta cs (some (if s.blt (f c beta.neg alpha.neg).1.neg
            then (f c beta.neg alpha.neg).1.neg else s))
         (alpha.maxE (if s.blt (f c beta.neg alpha.neg).1.neg
            then (f c beta.neg alpha.neg).1.neg else s)) (f c beta.neg alpha.neg).2) := rfl
  rw [h, PyFloat.blt_max]

/-!  ## The premature-stop flag never fires below the top two plies -/

theorem abLoopF_stop (d2 ceil : Nat) (beta : PyFloat) :
    ∀ (cs : List GTree) (score : Option PyFloat) (alpha : PyFloat),
    (∀ c ∈ cs, ∀ a b, (alphabeta_negamax d2 c ceil a b).2 = false) →
    (abLoopF (fun c a b => alphabeta_negamax d2 c ceil a b) beta cs score alpha false).2 =
      false := by
  intro cs
  induction cs with
  | nil => intro score alpha _; rfl
  | cons c cs ih =>
    intro score alpha hstop
    have hstopc := hstop c (List.mem_cons_self c cs)
    cases score with
    | none =>
      rw [abLoopF_cons_none]
      rw [hstopc beta.neg alpha.neg]
      simp only [Bool.false_or]
      by_cases hb : beta.ble (alpha.maxE (alphabeta_negamax d2 c ceil beta.neg alpha.neg).1.neg) = true
      · rw [if_pos hb]
      · rw [if_neg hb]
        exact ih _ _ (fun c2 hc2 => hstop c2 (List.mem_cons_of_mem c hc2))
    | some s =>
      rw [abLoopF_cons_some]
      rw [hstopc beta.neg alpha.neg]
      simp only [Bool.false_or]
      by_cases hb : beta.ble
          (alpha.maxE (s.maxE (alphabeta_negamax d2 c ceil beta.neg alpha.neg).1.neg)) = true
      · rw [if_pos hb]
      · rw [if_neg hb]
        exact ih _ _ (fun c2 hc2 => hstop c2 (List.mem_cons_of_mem c hc2))

theorem ab_stop_false : ∀ (d : Nat) (t : GTree) (ceil : Nat) (a b : PyFloat),
    2 ≤ ceil →
    ((d : Int) ≤ (ceil : Int) - 2 ∨ ((d : Int) ≤ (ceil : Int) - 1 ∧ t.over = false ∧ 1 ≤ d)) →
    (alphabeta_negamax d t ceil a b).2 = false := by
  intro d
  induction d with
  | zero =>
    intro t ceil a b hceil hcond
    show decide ((ceil : Int) ≤ 0 + 1) = false
    simp only [decide_eq_false_iff_not]
    omega
  | succ d ih =>
    intro t ceil a b hceil hcond
    obtain ⟨v, over, cs⟩ := t
    cases over with
    | true =>
      have hd2 : ((d : Int) + 1) ≤ (ceil : Int) - 2 := by
        rcases hcond with h | h
        · push_cast at h; omega
        · exact absurd h.2.1 (by simp [GTree.over])
      show decide ((ceil : Int) ≤ (d + 1) + 1) = false
      simp only [decide_eq_false_iff_not]
      omega
    | false =>
      show (abLoopF (fun c a2 b2 => alphabeta_negamax d c ceil a2 b2) b cs none a false).2 = false
      apply abLoopF_stop
      intro c _ a2 b2
      apply ih c ceil a2 b2 hceil
      left
      rcases hcond with h | h
      · push_cast at h ⊢; omega
      · obtain ⟨h1, _, _⟩ := h
        push_cast at h1 ⊢
        omega

/-!  ## Fail-soft window guarantees -/

theorem FailSoft.of_eq {g v lo hi : PyFloat} (h : g = v) : FailSoft g v lo hi :=
  ⟨fun _ => h ▸ PyFloat.ble_refl g, fun _ _ => h, fun _ => h ▸ PyFloat.ble_refl g⟩

theorem FailSoft.full_window {g v : PyFloat} (h : FailSoft g v .ninf .pinf) : g = v := by
  by_cases h1 : g.ble .ninf = true
  · have hg := PyFloat.ble_ninf_eq h1
    have hv := h.1 h1
    rw [hg] at hv ⊢
    exact (PyFloat.ble_ninf_eq hv).symm
  · by_cases h2 : PyFloat.ble .pinf g = true
    · have hg := PyFloat.pinf_ble_eq h2
      have hv := h.2.2 h2
      rw [hg] at hv ⊢
      exact (PyFloat.pinf_ble_eq hv).symm
    · apply h.2.1
      · rw [PyFloat.blt_iff]; simp [h1]
      · rw [PyFloat.blt_iff]; simp [h2]

theorem PyFloat.ble_neg_right (u b : PyFloat) : u.ble b.neg = b.ble u.neg := by
  conv_lhs => rw [← PyFloat.neg_neg u]
  exact PyFloat.ble_neg u.neg b

theorem PyFloat.neg_ble_left (a u : PyFloat) : a.neg.ble u = u.neg.ble a := by
  conv_lhs => rw [← PyFloat.neg_neg u]
  exact PyFloat.ble_neg a u.neg

/-- Translate a child's fail-soft guarantee at the negated swapped window
`(-beta, -a)` into facts about `curr = -(child value)`. -/
theorem failsoft_child_view {u w a beta : PyFloat}
    (h : FailSoft u w beta.neg a.neg) :
    (beta.ble u.neg = true → u.neg.ble w.neg = true) ∧
    (a.blt u.neg = true → u.neg.blt beta = true → u.neg = w.neg) ∧
    (u.neg.ble a = true → w.neg.ble u.neg = true) := by
  obtain ⟨f1, f2, f3⟩ := h
  refine ⟨?_, ?_, ?_⟩
  · intro hb
    have h1 : u.ble beta.neg = true := by rw [PyFloat.ble_neg_right]; exact hb
    have h2 := f1 h1
    rw [PyFloat.ble_neg u w]
    exact h2
  · intro h1 h2
    have g1 : beta.neg.blt u = true := by
      rw [PyFloat.blt_iff] at h2 ⊢
      rw [PyFloat.ble_neg_right]
      exact h2
    have g2 : u.blt a.neg = true := by
      rw [PyFloat.blt_iff] at h1 ⊢
      rw [PyFloat.neg_ble_left]
      exact h1
    rw [f2 g1 g2]
  · intro h1
    have g1 : a.neg.ble u = true := by rw [PyFloat.neg_ble_left]; exact h1
    have h2 := f3 g1
    rw [PyFloat.ble_neg w u]
    exact h2

/-!  ## The fail-soft invariant of the alpha-beta child loop -/

/-- Mid-loop invariant of alphabeta_negamax's child loop: with best score so
far `s`, alpha raised to `max alpha0 s`, and `M` the running maximum of the
already-processed children's negated full-width values, the loop result is
fail-soft correct for the maximum over the remaining children, and the stop
flag stays down. -/
theorem abLoop_spec (d2 ceil : Nat) (beta alpha0 : PyFloat)
    (hab : alpha0.blt beta = true) :
    ∀ (cs : List GTree) (s M : PyFloat),
    (∀ c ∈ cs, ∀ a b, (alphabeta_negamax d2 c ceil a b).2 = false) →
    (∀ c ∈ cs, ∀ a b, a.blt b = true →
      FailSoft (alphabeta_negamax d2 c ceil a b).1 (fullwidth_negamax d2 c) a b) →
    M.ble s = true →
    s.ble (alpha0.maxE M) = true →
    s.blt beta = true →
    FailSoft (abLoopF (fun c a b => alphabeta_negamax d2 c ceil a b) beta cs (some s)
        (alpha0.maxE s) false).1
      (cs.foldl (fun acc c => acc.maxE (fullwidth_negamax d2 c).neg) M) alpha0 beta ∧
    (abLoopF (fun c a b => alphabeta_negamax d2 c ceil a b) beta cs (some s)
        (alpha0.maxE s) false).2 = false := by
  intro cs
  induction cs with
  | nil =>
    intro s M _ _ hMs hsM hsb
    rw [abLoopF_nil, List.foldl_nil]
    refine ⟨⟨?_, ?_, ?_⟩, rfl⟩
    · intro _
      exact hMs
    · intro h1 _
      rcases PyFloat.maxE_cases alpha0 M with hm | hm
      · rw [hm] at hsM
        rw [PyFloat.blt_iff] at h1
        simp only [Option.getD_some] at h1
        exact absurd hsM (by simp [h1])
      · rw [hm] at hsM
        exact PyFloat.ble_antisymm hsM hMs
    · intro hbg
      simp only [Option.getD_some] at hbg
      rw [PyFloat.blt_iff] at hsb
      exact absurd hbg (by simp [hsb])
  | cons c cs ih =>
    intro s M hstop hval hMs hsM hsb
    have hstopc := hstop c (List.mem_cons_self c cs)
    have hvalc := hval c (List.mem_cons_self c cs)
    have hstop2 : ∀ c2 ∈ cs, ∀ a b, (alphabeta_negamax d2 c2 ceil a b).2 = false :=
      fun c2 hc2 => hstop c2 (List.mem_cons_of_mem c hc2)
    have hval2 : ∀ c2 ∈ cs, ∀ a b, a.blt b = true →
        FailSoft (alphabeta_negamax d2 c2 ceil a b).1 (fullwidth_negamax d2 c2) a b :=
      fun c2 hc2 => hval c2 (List.mem_cons_of_mem c hc2)
    have hgb : (alpha0.maxE s).blt beta = true := PyFloat.maxE_blt hab hsb
    have hwin : (beta.neg).blt ((alpha0.maxE s).neg) = true := by
      rw [PyFloat.blt_iff, PyFloat.ble_neg]
      exact PyFloat.blt_iff.mp hgb
    obtain ⟨cv1, cv2, cv3⟩ :=
      failsoft_child_view (hvalc beta.neg (alpha0.maxE s).neg hwin)
    rw [abLoopF_cons_some, List.foldl_cons]
    rw [hstopc beta.neg (alpha0.maxE s).neg]
    simp only [Bool.false_or]
    set curr := (alphabeta_negamax d2 c ceil beta.neg (alpha0.maxE s).neg).1.neg with hcurr
    set w := fullwidth_negamax d2 c with hwdef
    by_cases hlow : curr.ble (alpha0.maxE s) = true
    · -- fail low: the child cannot raise the score past alpha
      have hvc : w.neg.ble curr = true := cv3 hlow
      have hs2 : s.ble (s.maxE curr) = true := PyFloat.le_maxE_left s curr
      have hs2a : (s.maxE curr).ble (alpha0.maxE s) = true :=
        PyFloat.maxE_lub (PyFloat.le_maxE_right alpha0 s) hlow
      have hnb : beta.ble ((alpha0.maxE s).maxE (s.maxE curr)) = false :=
        PyFloat.blt_iff.mp (PyFloat.maxE_blt hgb (PyFloat.ble_blt_trans hs2a hgb))
      rw [if_neg (by simp [hnb])]
      rw [PyFloat.maxE_collapse hs2]
      have hMM : (alpha0.maxE M).ble (alpha0.maxE (M.maxE w.neg)) = true :=
        PyFloat.maxE_lub (PyFloat.le_maxE_left alpha0 (M.maxE w.neg))
          (PyFloat.ble_trans (PyFloat.le_maxE_left M w.neg)
            (PyFloat.le_maxE_right alpha0 (M.maxE w.neg)))
      have hsM2 : s.ble (alpha0.maxE (M.maxE w.neg)) = true := PyFloat.ble_trans hsM hMM
      exact ih (s.maxE curr) (M.maxE w.neg) hstop2 hval2
        (PyFloat.maxE_lub (PyFloat.ble_trans hMs hs2)
          (PyFloat.ble_trans hvc (PyFloat.le_maxE_right s curr)))
        (PyFloat.maxE_lub hsM2
          (PyFloat.ble_trans hlow (PyFloat.maxE_lub
            (PyFloat.le_maxE_left alpha0 (M.maxE w.neg)) hsM2)))
        (PyFloat.maxE_blt hsb (PyFloat.ble_blt_trans hlow hgb))
    · have hcurra : (alpha0.maxE s).blt curr = true := by
        rw [PyFloat.blt_iff]
        simp [hlow]
      by_cases hhigh : beta.ble curr = true
      · -- fail high: break with a value at least beta
        have hvc : curr.ble w.neg = true := cv1 hhigh
        have hsc : s.ble curr = true :=
          PyFloat.blt_imp_ble (PyFloat.blt_ble_trans hsb hhigh)
        have hs2 : s.maxE curr = curr := by
          unfold PyFloat.maxE
          rw [if_pos hsc]
        have hbreak : beta.ble ((alpha0.maxE s).maxE (s.maxE curr)) = true := by
          rw [hs2]
          exact PyFloat.ble_trans hhigh (PyFloat.le_maxE_right (alpha0.maxE s) curr)
        rw [if_pos (by simp [hbreak])]
        rw [hs2]
        refine ⟨⟨?_, ?_, ?_⟩, rfl⟩
        · intro hga
          rw [PyFloat.blt_iff] at hab
          exact absurd (PyFloat.ble_trans hhigh hga) (by simp [hab])
        · intro _ h2
          rw [PyFloat.blt_iff] at h2
          exact absurd hhigh (by simp [h2])
        · intro _
          refine PyFloat.ble_trans hvc ?_
          refine PyFloat.ble_trans (PyFloat.le_maxE_right M w.neg) ?_
          exact foldl_maxE_le_init (fun c2 => (fullwidth_negamax d2 c2).neg) cs (M.maxE w.neg)
      · -- in-window: the child value is exact
        have hcb : curr.blt beta = true := by
          rw [PyFloat.blt_iff]
          simp [hhigh]
        have hveq : curr = w.neg := cv2 hcurra hcb
        have hsc : s.ble curr = true :=
          PyFloat.blt_imp_ble (PyFloat.ble_blt_trans (PyFloat.le_maxE_right alpha0 s) hcurra)
        have hs2 : s.maxE curr = curr := by
          unfold PyFloat.maxE
          rw [if_pos hsc]
        have hnb : beta.ble ((alpha0.maxE s).maxE (s.maxE curr)) = false := by
          rw [hs2]
          exact PyFloat.blt_iff.mp (PyFloat.maxE_blt hgb hcb)
        rw [if_neg (by simp [hnb])]
        rw [hs2, PyFloat.maxE_collapse hsc]
        exact ih curr (M.maxE w.neg) hstop2 hval2
          (PyFloat.maxE_lub (PyFloat.ble_trans hMs hsc)
            (by rw [← hveq]; exact PyFloat.ble_refl curr))
          (by
            rw [hveq]
            exact PyFloat.ble_trans (PyFloat.le_maxE_right M w.neg)
              (PyFloat.le_maxE_right alpha0 (M.maxE w.neg)))
          hcb

/-- The first loop iteration, starting from `score = None` and the incoming
alpha: the loop result is fail-soft correct for the maximum over all
children (0 when there are none). -/
theorem abLoop_start (d2 ceil : Nat) (beta alpha0 : PyFloat)
    (hab : alpha0.blt beta = true)
    (cs : List GTree)
    (hstop : ∀ c ∈ cs, ∀ a b, (alphabeta_negamax d2 c ceil a b).2 = false)
    (hval : ∀ c ∈ cs, ∀ a b, a.blt b = true →
      FailSoft (alphabeta_negamax d2 c ceil a b).1 (fullwidth_negamax d2 c) a b) :
    FailSoft (abLoopF (fun c a b => alphabeta_negamax d2 c ceil a b) beta cs none
        alpha0 false).1
      (match cs with
       | [] => .fin 0
       | c :: cs2 => cs2.foldl (fun acc c2 => acc.maxE (fullwidth_negamax d2 c2).neg)
           (fullwidth_negamax d2 c).neg) alpha0 beta ∧
    (abLoopF (fun c a b => alphabeta_negamax d2 c ceil a b) beta cs none
        alpha0 false).2 = false := by
  cases cs with
  | nil =>
    rw [abLoopF_nil]
    exact ⟨FailSoft.of_eq rfl, rfl⟩
  | cons c cs =>
    have hstopc := hstop c (List.mem_cons_self c cs)
    have hvalc := hval c (List.mem_cons_self c cs)
    have hstop2 : ∀ c2 ∈ cs, ∀ a b, (alphabeta_negamax d2 c2 ceil a b).2 = false :=
      fun c2 hc2 => hstop c2 (List.mem_cons_of_mem c hc2)
    have hval2 : ∀ c2 ∈ cs, ∀ a b, a.blt b = true →
        FailSoft (alphabeta_negamax d2 c2 ceil a b).1 (fullwidth_negamax d2 c2) a b :=
      fun c2 hc2 => hval c2 (List.mem_cons_of_mem c hc2)
    have hwin : (beta.neg).blt (alpha0.neg) = true := by
      rw [PyFloat.blt_iff, PyFloat.ble_neg]
      exact PyFloat.blt_iff.mp hab
    obtain ⟨cv1, cv2, cv3⟩ := failsoft_child_view (hvalc beta.neg alpha0.neg hwin)
    rw [abLoopF_cons_none]
    rw [hstopc beta.neg alpha0.neg]
    simp only [Bool.false_or]
    set curr := (alphabeta_negamax d2 c ceil beta.neg alpha0.neg).1.neg with hcurr
    set w := fullwidth_negamax d2 c with hwdef
    by_cases hhigh : beta.ble curr = true
    · -- fail high on the very first child: break
      have hvc : curr.ble w.neg = true := cv1 hhigh
      have hbreak : beta.ble (alpha0.maxE curr) = true :=
        PyFloat.ble_trans hhigh (PyFloat.le_maxE_right alpha0 curr)
      rw [if_pos (by simp [hbreak])]
      refine ⟨⟨?_, ?_, ?_⟩, rfl⟩
      · intro hga
        rw [PyFloat.blt_iff] at hab
        exact absurd (PyFloat.ble_trans hhigh hga) (by simp [hab])
      · intro _ h2
        rw [PyFloat.blt_iff] at h2
        exact absurd hhigh (by simp [h2])
      · intro _
        exact PyFloat.ble_trans hvc
          (foldl_maxE_le_init (fun c2 => (fullwidth_negamax d2 c2).neg) cs w.neg)
    · have hcb : curr.blt beta = true := by
        rw [PyFloat.blt_iff]
        simp [hhigh]
      have hnb : beta.ble (alpha0.maxE curr) = false :=
        PyFloat.blt_iff.mp (PyFloat.maxE_blt hab hcb)
      rw [if_neg (by simp [hnb])]
      by_cases hlow : curr.ble alpha0 = true
      · -- fail low on the first child
        have hvc : w.neg.ble curr = true := cv3 hlow
        exact abLoop_spec d2 ceil beta alpha0 hab cs curr w.neg hstop2 hval2
          hvc
          (PyFloat.ble_trans hlow (PyFloat.le_maxE_left alpha0 w.neg))
          hcb
      · -- in-window first child: exact value
        have hcurra : alpha0.blt curr = true := by
          rw [PyFloat.blt_iff]
          simp [hlow]
        have hveq : curr = w.neg := cv2 hcurra hcb
        exact abLoop_spec d2 ceil beta alpha0 hab cs curr w.neg hstop2 hval2
          (by rw [← hveq]; exact PyFloat.ble_refl curr)
          (by rw [hveq]; exact PyFloat.le_maxE_right alpha0 w.neg)
          hcb

/-- The full-width value of a non-leaf node as a fold over the children. -/
theorem fw_succ_eq (d2 : Nat) (v : PyFloat) (cs : List GTree) :
    fullwidth_negamax (d2 + 1) (.node v false cs) =
      (match cs with
       | [] => PyFloat.fin 0
       | c :: cs2 => cs2.foldl (fun acc c2 => acc.maxE (fullwidth_negamax d2 c2).neg)
           (fullwidth_negamax d2 c).neg) := by
  cases cs with
  | nil => rfl
  | cons c cs2 =>
    have h1 : fullwidth_negamax (d2 + 1) (.node v false (c :: cs2)) =
        ((cs2.map (fun c2 => (fullwidth_negamax d2 c2).neg)).foldl PyFloat.maxE
          ((fullwidth_negamax d2 c).neg)) := rfl
    rw [h1, List.foldl_map]

/-- Fail-soft correctness of alphabeta_negamax against the full-width
negamax, for calls whose whole subtree keeps the stop flag down: depth at
most ceil-2, or depth ceil-1 at a node that is not game over. -/
theorem ab_failsoft : ∀ (d : Nat) (t : GTree) (ceil : Nat) (alpha beta : PyFloat),
    2 ≤ ceil →
    ((d : Int) ≤ (ceil : Int) - 2 ∨ ((d : Int) ≤ (ceil : Int) - 1 ∧ t.over = false ∧ 1 ≤ d)) →
    alpha.blt beta = true →
    FailSoft (alphabeta_negamax d t ceil alpha beta).1 (fullwidth_negamax d t) alpha beta := by
  intro d
  induction d with
  | zero =>
    intro t ceil alpha beta _ _ _
    exact FailSoft.of_eq rfl
  | succ d ih =>
    intro t ceil alpha beta hceil hcond hab
    obtain ⟨v, over, cs⟩ := t
    cases over with
    | true => exact FailSoft.of_eq rfl
    | false =>
      have hchild : (d : Int) ≤ (ceil : Int) - 2 := by
        rcases hcond with h | h
        · push_cast at h; omega
        · obtain ⟨h1, _, _⟩ := h
          push_cast at h1
          omega
      have hstopc : ∀ c ∈ cs, ∀ a b, (alphabeta_negamax d c ceil a b).2 = false :=
        fun c _ a b => ab_stop_false d c ceil a b hceil (Or.inl hchild)
      have hvalc : ∀ c ∈ cs, ∀ a b, a.blt b = true →
          FailSoft (alphabeta_negamax d c ceil a b).1 (fullwidth_negamax d c) a b :=
        fun c _ a b hab2 => ih c ceil a b hceil (Or.inl hchild) hab2
      have hmain := abLoop_start d ceil beta alpha hab cs hstopc hvalc
      rw [fw_succ_eq]
      exact hmain.1

/-!  ## C4: pruned versus full-width search value -/

/-- C4 (amended): for depth at least 2 and a board that is not game over
and none of whose one-move successors is game over (so the premature-stop
flag never fires; there is no time cutoff), alphabeta_negamax started with
the full window returns exactly the full-width negamax value of the same
depth over the same move generator and evaluator. -/
theorem c4_pruned_equals_fullwidth (d : Nat) (t : GTree)
    (hd : 2 ≤ d) (hov : t.over = false)
    (hch : ∀ c ∈ t.children, c.over = false) :
    (alphabeta_negamax d t d .ninf .pinf).1 = fullwidth_negamax d t := by
  obtain ⟨d2, rfl⟩ : ∃ d2, d = d2 + 1 := ⟨d - 1, by omega⟩
  obtain ⟨v, over, cs⟩ := t
  simp only [GTree.over] at hov
  subst hov
  simp only [GTree.children] at hch
  have hstopc : ∀ c ∈ cs, ∀ a b, (alphabeta_negamax d2 c (d2 + 1) a b).2 = false := by
    intro c hc a b
    apply ab_stop_false d2 c (d2 + 1) a b (by omega)
    right
    refine ⟨by push_cast; omega, hch c hc, by omega⟩
  have hvalc : ∀ c ∈ cs, ∀ a b, a.blt b = true →
      FailSoft (alphabeta_negamax d2 c (d2 + 1) a b).1 (fullwidth_negamax d2 c) a b := by
    intro c hc a b hab
    exact ab_failsoft d2 c (d2 + 1) a b (by omega)
      (Or.inr ⟨by push_cast; omega, hch c hc, by omega⟩) hab
  have hmain := abLoop_start d2 (d2 + 1) .pinf .ninf (by rfl) cs hstopc hvalc
  rw [fw_succ_eq]
  exact FailSoft.full_window hmain.1

/-- Witness for the amended C4 at a concrete depth-2 tree. -/
theorem c4_pruned_equals_fullwidth_witness :
    (alphabeta_negamax 2 wit4Tree 2 .ninf .pinf).1 = fullwidth_negamax 2 wit4Tree :=
  c4_pruned_equals_fullwidth 2 wit4Tree (by omega) (by decide) (by decide)

/-- Counterexample for C4 as stated: at depth 1 every leaf reports
`stop = depth >= ceil - 1`, so the pruned search breaks after the first
ordered move and returns its value (0) while the full-width negamax over
the same tree returns 5. -/
theorem c4_depth1_counterexample :
    (alphabeta_negamax 1 cex4Tree 1 .ninf .pinf).1 ≠ fullwidth_negamax 1 cex4Tree := by
  decide
